import Mathlib

/-!
Verification development for the shotover-proxy protocol transcoders.

Source files embedded here:
  * src/shotover-proxy/src/codec/redis.rs      (the RESP2 key-value codec)
  * src/src/protocols/cassandra_protocol2.rs   (the tabular result-set rebuild)

Rust machine integers are modelled as `Int`/`Nat` with explicit range checks,
byte buffers as `List Nat`, Rust `String` as its byte sequence (`List Nat`;
UTF-8 validation is identified with the byte sequence itself).  Fallible code
returns `Except`/`Option`; Rust panics (`unreachable!`, `unwrap` on `None`)
are modelled by a distinguished result constructor.

The low-level RESP2 wire parser/serializer used by the codec comes from the
external `redis_protocol` crate (`decode_mut` / `encode_bytes`), which is not
part of this repository.  Those two functions are modelled from the spec
(sections 4.1, 4.2 and 6: type-prefix byte, CRLF-terminated length/value
fields, "no complete frame yet" on a partial frame, decode error on malformed
framing).  Everything at the codec level and above is translated from the
repository source.
-/

/-- Bytes of an ASCII string literal, used for command-name constants. -/
def strBytes (s : String) : List Nat := s.data.map Char.toNat

/-- Embeds `redis_protocol::resp2::types::Frame` (called `RedisFrame` in
redis.rs): the RESP2 wire frame tagged union. -/
inductive RFrame where
  | simpleString (s : List Nat)
  | error (s : List Nat)
  | integer (i : Int)
  | bulkString (s : List Nat)
  | array (elems : List RFrame)
  | null
deriving Repr

/-- Modelled from the spec: canonical decimal rendering of a length /
integer field (CRLF-terminated length fields of the wire format). -/
def natDecimal (n : Nat) : List Nat :=
  if n = 0 then [48] else ((Nat.digits 10 n).map (· + 48)).reverse

/-- Numeric value of a decimal digit string (most significant digit first). -/
def natVal (l : List Nat) : Nat :=
  Nat.ofDigits 10 ((l.map (fun c => c - 48)).reverse)

/-- Modelled from the spec: strict decimal parser for length fields.  It
accepts exactly the canonical rendering produced by `natDecimal`. -/
def parseNat (l : List Nat) : Option Nat :=
  let n := natVal l
  if natDecimal n = l then some n else none

/-- Modelled from the spec: rendering of a signed (i64) integer field. -/
def intDecimal (i : Int) : List Nat :=
  if i < 0 then 45 :: natDecimal (-i).toNat else natDecimal i.toNat

/-- Signed value of a decimal string with optional leading minus sign. -/
def intVal : List Nat → Int
  | [] => (natVal [] : Int)
  | c :: rest => if c = 45 then -(natVal rest : Int) else (natVal (c :: rest) : Int)

/-- Modelled from the spec: strict signed-decimal parser for the `:` integer
frame, restricted to the i64 range as in the external crate. -/
def parseInt (l : List Nat) : Option Int :=
  let i := intVal l
  if intDecimal i = l ∧ -(2 ^ 63) ≤ i ∧ i < 2 ^ 63 then some i else none

/-- Result of scanning for one CRLF-terminated line. -/
inductive LineRes where
  | done (line rest : List Nat)
  | incomplete
  | fail
deriving Repr

/-- Modelled from the spec: scan a CRLF-terminated field.  Running out of
bytes is "incomplete"; a CR followed by anything but LF is malformed. -/
def readLine : List Nat → LineRes
  | [] => .incomplete
  | c :: rest =>
    if c = 13 then
      match rest with
      | [] => .incomplete
      | d :: rest2 => if d = 10 then .done [] rest2 else .fail
    else
      match readLine rest with
      | .done l r => .done (c :: l) r
      | .incomplete => .incomplete
      | .fail => .fail

/-- Result of decoding one frame from the front of a buffer. -/
inductive DRes where
  | done (f : RFrame) (rest : List Nat)
  | incomplete
  | fail
deriving Repr

/-- Result of decoding a fixed number of frames from a buffer. -/
inductive NRes where
  | done (fs : List RFrame) (rest : List Nat)
  | incomplete
  | fail
deriving Repr

/-- Decode `n` consecutive frames with the supplied single-frame step. -/
def decodeN (step : List Nat → DRes) : Nat → List Nat → NRes
  | 0, b => .done [] b
  | n + 1, b =>
    match step b with
    | .done f r =>
      match decodeN step n r with
      | .done fs r2 => .done (f :: fs) r2
      | .incomplete => .incomplete
      | .fail => .fail
    | .incomplete => .incomplete
    | .fail => .fail

/-- Modelled from the spec: the RESP2 single-frame decoder
(`redis_protocol::resp2::decode_mut`), fuelled by the nesting depth.  The
type-prefix byte selects the variant; `$-1` decodes to the `Null` frame. -/
def decodeF : Nat → List Nat → DRes
  | 0, _ => .incomplete
  | _ + 1, [] => .incomplete
  | fuel + 1, c :: rest =>
    if c = 43 then
      match readLine rest with
      | .done l r => .done (.simpleString l) r
      | .incomplete => .incomplete
      | .fail => .fail
    else if c = 45 then
      match readLine rest with
      | .done l r => .done (.error l) r
      | .incomplete => .incomplete
      | .fail => .fail
    else if c = 58 then
      match readLine rest with
      | .done l r =>
        match parseInt l with
        | some i => .done (.integer i) r
        | none => .fail
      | .incomplete => .incomplete
      | .fail => .fail
    else if c = 36 then
      match readLine rest with
      | .done l r =>
        if l = [45, 49] then .done .null r
        else
          match parseNat l with
          | some n =>
            if r.length < n then .incomplete
            else
              match r.drop n with
              | [] => .incomplete
              | [13] => .incomplete
              | 13 :: 10 :: r2 => .done (.bulkString (r.take n)) r2
              | _ => .fail
          | none => .fail
      | .incomplete => .incomplete
      | .fail => .fail
    else if c = 42 then
      match readLine rest with
      | .done l r =>
        match parseNat l with
        | some n =>
          match decodeN (decodeF fuel) n r with
          | .done fs r2 => .done (.array fs) r2
          | .incomplete => .incomplete
          | .fail => .fail
        | none => .fail
      | .incomplete => .incomplete
      | .fail => .fail
    else .fail

/-- One attempt to pull a single complete frame off the front of the buffer
(`decode_mut` at the call site in `RedisCodec::decode`).  The fuel
`b.length + 1` always dominates the nesting depth of any decodable frame. -/
def decodeOne (b : List Nat) : DRes := decodeF (b.length + 1) b

mutual

/-- Modelled from the spec: the RESP2 frame serializer
(`redis_protocol::resp2::encode_bytes`): tag byte, CRLF-terminated
length/value fields; `Null` is the `$-1` sentinel. -/
def encodeFrame : RFrame → List Nat
  | .simpleString s => 43 :: (s ++ [13, 10])
  | .error s => 45 :: (s ++ [13, 10])
  | .integer i => 58 :: (intDecimal i ++ [13, 10])
  | .bulkString s => 36 :: (natDecimal s.length ++ [13, 10] ++ (s ++ [13, 10]))
  | .array xs => 42 :: (natDecimal xs.length ++ [13, 10] ++ encodeList xs)
  | .null => [36, 45, 49, 13, 10]

/-- Concatenated serialization of a sequence of frames. -/
def encodeList : List RFrame → List Nat
  | [] => []
  | x :: xs => encodeFrame x ++ encodeList xs

end

mutual

/-- Syntactic validity of a frame value: line-oriented payloads contain no
CR byte and integers fit the protocol's declared i64 width. -/
def validF : RFrame → Bool
  | .simpleString s => s.all (fun c => c ≠ 13)
  | .error s => s.all (fun c => c ≠ 13)
  | .integer i => decide (-(2 ^ 63) ≤ i ∧ i < 2 ^ 63)
  | .bulkString _ => true
  | .array xs => validList xs
  | .null => true

/-- Validity of every frame in a list. -/
def validList : List RFrame → Bool
  | [] => true
  | x :: xs => validF x && validList xs

end

/-! ## Semantic message model (crate::message, not under src/)

The `Message`, `MessageDetails`, `MessageValue`, `QueryMessage`,
`QueryResponse`, `ASTHolder` types and the `RedisFrame → MessageValue`
conversion live in `crate::message`, which is not part of the excerpted
source; they are modelled from the spec (section 3, Semantic Message /
Semantic Value) with exactly the fields and variants the source uses. -/

/-- Modelled from the spec: declared bit width of an integer value
(`IntSize` in crate::message); redis.rs uses `I32` for responses. -/
inductive IntSize where
  | I32
  | I64
deriving Repr, DecidableEq

/-- Modelled from the spec: the query-type tag (section 3). -/
inductive QueryType where
  | Read
  | Write
  | ReadWrite
deriving Repr, DecidableEq

mutual

/-- Modelled from the spec: the Semantic Value tagged union (section 3),
restricted to the variants the embedded source constructs. -/
inductive MessageValue where
  | None
  | Bytes (b : List Nat)
  | Strings (s : List Nat)
  | Integer (i : Int) (size : IntSize)
  | List (l : List MessageValue)
  | Document (d : List (List Nat × MessageValue))

end

/-- Modelled from the spec: ordered-key Document insert (Rust
`BTreeMap::insert`): replace an existing key or insert sorted by key. -/
def btInsert (k : List Nat) (v : MessageValue) :
    List (List Nat × MessageValue) → List (List Nat × MessageValue)
  | [] => [(k, v)]
  | (k', v') :: rest =>
    if k = k' then (k, v) :: rest
    else if decide (k < k') then (k, v) :: (k', v') :: rest
    else (k', v') :: btInsert k v rest

/-- HashMap modelled as an association list; `hmInsert` replaces the value
of an existing key in place (Rust `HashMap::insert`). -/
def hmInsert (k : List Nat) (v : MessageValue) :
    List (List Nat × MessageValue) → List (List Nat × MessageValue)
  | [] => [(k, v)]
  | (k', v') :: rest => if k = k' then (k, v) :: rest else (k', v') :: hmInsert k v rest

/-- HashMap lookup. -/
def hmGet (k : List Nat) : List (List Nat × MessageValue) → Option MessageValue
  | [] => none
  | (k', v') :: rest => if k = k' then some v' else hmGet k rest

mutual

/-- Modelled from the spec: the `From<RedisFrame> for MessageValue`
conversion (`frame.into()` in redis.rs): string-like frames become string
values, bulk strings keep their bytes, arrays become lists, `Null` is the
empty value. -/
def toValue : RFrame → MessageValue
  | .simpleString s => .Strings s
  | .error s => .Strings s
  | .integer i => .Integer i .I64
  | .bulkString s => .Bytes s
  | .array xs => .List (toValueList xs)
  | .null => .None

/-- Elementwise conversion of a frame list. -/
def toValueList : List RFrame → List MessageValue
  | [] => []
  | x :: xs => toValue x :: toValueList xs

end

/-- Modelled from the spec: the AST-holder preserving the original command
sub-frames (glossary: AST-holder). -/
inductive ASTHolder where
  | Commands (v : MessageValue)

/-- Modelled from the spec: the `Query` details variant (section 3). -/
structure QueryMessage where
  query_string : List Nat
  namespace_ : List (List Nat)
  primary_key : List (List Nat × MessageValue)
  query_values : Option (List (List Nat × MessageValue))
  projection : Option (List (List Nat))
  query_type : QueryType
  ast : Option ASTHolder

/-- Modelled from the spec: `QueryMessage::empty()` — the best-effort empty
classification used when the frame shape does not match. -/
def QueryMessage.empty : QueryMessage :=
  { query_string := [], namespace_ := [], primary_key := [], query_values := none,
    projection := none, query_type := .Read, ast := none }

/-- Modelled from the spec: the `Response` details variant (section 3). -/
structure QueryResponse where
  matching_query : Option QueryMessage
  result : Option MessageValue
  error : Option MessageValue
  response_meta : Option MessageValue

/-- Modelled from the spec: `QueryResponse::empty()` — the empty response
(no result, no error). -/
def QueryResponse.empty : QueryResponse :=
  { matching_query := none, result := none, error := none, response_meta := none }

/-- Modelled from the spec: the `details` variant of a Semantic Message. -/
inductive MessageDetails where
  | Unknown
  | Query (qm : QueryMessage)
  | Response (qr : QueryResponse)

/-- Modelled from the spec: `crate::frame::Frame`, the protocol-tagged raw
frame owned by a Message; the redis codec only handles the `Redis` variant. -/
inductive Frame where
  | Redis (f : RFrame)
  | Other

/-- Modelled from the spec: the Semantic Message envelope (section 3). -/
structure Message where
  details : MessageDetails
  modified : Bool
  original : Frame

/-- Modelled from the spec: `Message::new(details, modified, original)`. -/
def Message.new (d : MessageDetails) (m : Bool) (o : Frame) : Message :=
  { details := d, modified := m, original := o }

/-- A pure passthrough message: classification skipped (`details = Unknown`)
and not modified. -/
def Message.passthrough (m : Message) : Bool :=
  (match m.details with
   | .Unknown => true
   | _ => false) && !m.modified

/-! ## RedisCodec (src/shotover-proxy/src/codec/redis.rs) -/

/-- Embeds `DecodeType` (redis.rs lines 18-22). -/
inductive DecodeType where
  | Query
  | Response
deriving Repr, DecidableEq

/-- Embeds `RedisCodec` (redis.rs lines 24-29). -/
structure RedisCodec where
  decode_type : DecodeType
  enable_metadata : Bool
  messages : List Message

/-- Embeds `get_keys` (redis.rs lines 48-62): every bulk-string element
becomes a field holding `None` and a member of the `key` list; returns the
updated `(fields, keys)` pair. -/
def get_keys (fields keys : List (List Nat × MessageValue)) (frames : List RFrame) :
    List (List Nat × MessageValue) × List (List Nat × MessageValue) :=
  let rec go (fs : List RFrame) (fields : List (List Nat × MessageValue))
      (storage : List MessageValue) :
      List (List Nat × MessageValue) × List MessageValue :=
    match fs with
    | [] => (fields, storage)
    | .bulkString v :: rest => go rest (hmInsert v .None fields) (storage ++ [toValue (.bulkString v)])
    | _ :: rest => go rest fields storage
  let (fields', storage) := go frames fields []
  (fields', hmInsert (strBytes ("key")) (.List storage) keys)

/-- Embeds `get_key_multi_values` (redis.rs lines 64-80): `Vec::pop` takes
the last element of the reversed argument vector as the key; the remaining
elements (still in reversed wire order) become the value list under the
key's own field name. -/
def get_key_multi_values (fields keys : List (List Nat × MessageValue))
    (frames : List RFrame) :
    List (List Nat × MessageValue) × List (List Nat × MessageValue) :=
  match frames.getLast? with
  | some (.bulkString v) =>
    (hmInsert v (.List (toValueList frames.dropLast)) fields,
     hmInsert (strBytes ("key")) (.List [toValue (.bulkString v)]) keys)
  | _ => (fields, keys)

/-- Embeds `get_key_map` (redis.rs lines 82-106): pop the key, then consume
(field, value) pairs from the end of the vector into a Document. -/
def get_key_map (fields keys : List (List Nat × MessageValue))
    (frames : List RFrame) :
    List (List Nat × MessageValue) × List (List Nat × MessageValue) :=
  match frames.getLast? with
  | some (.bulkString v) =>
    let rec go (fs : List RFrame) (values : List (List Nat × MessageValue)) :
        List (List Nat × MessageValue) :=
      match fs with
      | [] => values
      | .bulkString field :: fs2 =>
        match fs2 with
        | frame :: fs3 => go fs3 (btInsert field (toValue frame) values)
        | [] => values
      | _ :: fs2 => go fs2 values
    let values := go frames.dropLast.reverse []
    (hmInsert v (.Document values) fields,
     hmInsert (strBytes ("key")) (.List [toValue (.bulkString v)]) keys)
  | _ => (fields, keys)

/-- Embeds `get_key_values` (redis.rs lines 108-124): consume (key, value)
pairs by popping from the end of the vector; every popped bulk-string key
joins the `key` list even when no value element follows it. -/
def get_key_values (fields keys : List (List Nat × MessageValue))
    (frames : List RFrame) :
    List (List Nat × MessageValue) × List (List Nat × MessageValue) :=
  let rec go (fs : List RFrame) (fields : List (List Nat × MessageValue))
      (storage : List MessageValue) :
      List (List Nat × MessageValue) × List MessageValue :=
    match fs with
    | [] => (fields, storage)
    | .bulkString k :: fs2 =>
      match fs2 with
      | frame :: fs3 => go fs3 (hmInsert k (toValue frame) fields)
          (storage ++ [toValue (.bulkString k)])
      | [] => (fields, storage ++ [toValue (.bulkString k)])
    | _ :: fs2 => go fs2 fields storage
  let (fields', storage) := go frames.reverse fields []
  (fields', hmInsert (strBytes ("key")) (.List storage) keys)

/-- ASCII uppercasing of one byte (`u8::to_ascii_uppercase`). -/
def asciiUpper (c : Nat) : Nat := if 97 ≤ c ∧ c ≤ 122 then c - 32 else c

/-- The four extraction shapes of the dispatch table (spec section 4.3);
`unrecognised` is the fall-through arm of the source match. -/
inductive Shape where
  | keys
  | keyValues
  | keyMultiValues
  | keyMap
  | unrecognised
deriving Repr, DecidableEq

/-- Embeds the command match of `handle_redis_array_query` (redis.rs lines
137-363) as a table: uppercased command name to extraction shape and
query-type tag (query_type starts as Write and is only overwritten by the
arms that set Read). -/
def commandTable (u : List Nat) : Shape × QueryType :=
  if u = strBytes ("APPEND") then (.keyValues, .Write)
  else if u = strBytes ("BITCOUNT") then (.keyValues, .Read)
  else if u = strBytes ("SET") then (.keyValues, .Write)
  else if u = strBytes ("SETNX") then (.keyValues, .Write)
  else if u = strBytes ("SETRANGE") then (.keyValues, .Write)
  else if u = strBytes ("STRLEN") then (.keys, .Read)
  else if u = strBytes ("MSET") then (.keyValues, .Write)
  else if u = strBytes ("MSETNX") then (.keyValues, .Write)
  else if u = strBytes ("GET") then (.keys, .Read)
  else if u = strBytes ("GETRANGE") then (.keyValues, .Read)
  else if u = strBytes ("MGET") then (.keys, .Read)
  else if u = strBytes ("INCR") then (.keys, .Write)
  else if u = strBytes ("INCRBY") then (.keyValues, .Write)
  else if u = strBytes ("INCRBYFLOAT") then (.keyValues, .Write)
  else if u = strBytes ("DECR") then (.keys, .Write)
  else if u = strBytes ("DECRBY") then (.keyValues, .Write)
  else if u = strBytes ("DEL") then (.keys, .Write)
  else if u = strBytes ("EXPIRE") then (.keyValues, .Write)
  else if u = strBytes ("TTL") then (.keys, .Write)
  else if u = strBytes ("RPUSH") then (.keyMultiValues, .Write)
  else if u = strBytes ("RPUSHX") then (.keyValues, .Write)
  else if u = strBytes ("LPUSH") then (.keyMultiValues, .Write)
  else if u = strBytes ("LRANGE") then (.keyMultiValues, .Read)
  else if u = strBytes ("LINDEX") then (.keyMultiValues, .Read)
  else if u = strBytes ("LINSERT") then (.keyMultiValues, .Write)
  else if u = strBytes ("LLEN") then (.keys, .Read)
  else if u = strBytes ("LPOP") then (.keys, .Write)
  else if u = strBytes ("LSET") then (.keyMultiValues, .Write)
  else if u = strBytes ("LTRIM") then (.keyMultiValues, .Write)
  else if u = strBytes ("RPOP") then (.keys, .Write)
  else if u = strBytes ("SADD") then (.keyMultiValues, .Write)
  else if u = strBytes ("SCARD") then (.keys, .Read)
  else if u = strBytes ("SREM") then (.keyMultiValues, .Write)
  else if u = strBytes ("SISMEMBER") then (.keys, .Read)
  else if u = strBytes ("SMEMBERS") then (.keys, .Read)
  else if u = strBytes ("SUNION") then (.keys, .Read)
  else if u = strBytes ("SINTER") then (.keys, .Read)
  else if u = strBytes ("SMOVE") then (.keyValues, .Write)
  else if u = strBytes ("SPOP") then (.keyValues, .Write)
  else if u = strBytes ("ZADD") then (.keyMultiValues, .Write)
  else if u = strBytes ("ZCARD") then (.keys, .Read)
  else if u = strBytes ("ZCOUNT") then (.keyMultiValues, .Read)
  else if u = strBytes ("ZINCRBY") then (.keyMultiValues, .Write)
  else if u = strBytes ("ZRANGE") then (.keyMultiValues, .Read)
  else if u = strBytes ("ZRANK") then (.keys, .Read)
  else if u = strBytes ("ZREM") then (.keyMultiValues, .Write)
  else if u = strBytes ("ZREMRANGEBYRANK") then (.keyMultiValues, .Write)
  else if u = strBytes ("ZREMRANGEBYSCORE") then (.keyMultiValues, .Write)
  else if u = strBytes ("ZSCORE") then (.keys, .Read)
  else if u = strBytes ("ZRANGEBYSCORE") then (.keyMultiValues, .Read)
  else if u = strBytes ("HGET") then (.keys, .Read)
  else if u = strBytes ("HGETALL") then (.keys, .Read)
  else if u = strBytes ("HSET") then (.keyMap, .Write)
  else if u = strBytes ("HSETNX") then (.keyMap, .Write)
  else if u = strBytes ("HMSET") then (.keyMap, .Write)
  else if u = strBytes ("HINCRBY") then (.keyMultiValues, .Write)
  else if u = strBytes ("HDEL") then (.keyMultiValues, .Write)
  else if u = strBytes ("HEXISTS") then (.keyValues, .Read)
  else if u = strBytes ("HKEYS") then (.keys, .Read)
  else if u = strBytes ("HLEN") then (.keys, .Read)
  else if u = strBytes ("HSTRLEN") then (.keyValues, .Read)
  else if u = strBytes ("HVALS") then (.keys, .Read)
  else if u = strBytes ("PFADD") then (.keyMultiValues, .Write)
  else if u = strBytes ("PFCOUNT") then (.keys, .Read)
  else if u = strBytes ("PFMERGE") then (.keyMultiValues, .Write)
  else (.unrecognised, .Write)

/-- Runs the extraction shape chosen by `commandTable` on the remaining
(reversed) command elements, exactly as the arms of the source match call
the four helpers on `query_values` and `primary_key`. -/
def runShape (sh : Shape) (frames : List RFrame) :
    List (List Nat × MessageValue) × List (List Nat × MessageValue) :=
  match sh with
  | .keys => get_keys [] [] frames
  | .keyValues => get_key_values [] [] frames
  | .keyMultiValues => get_key_multi_values [] [] frames
  | .keyMap => get_key_map [] [] frames
  | .unrecognised => ([], [])

/-- Embeds `redis_protocol::resp2::types::Frame::as_str`, modelled from the
spec: only bulk-string elements contribute their text (section 4.3,
"joining every bulk-string element with single spaces"). -/
def RFrame.as_str : RFrame → Option (List Nat)
  | .bulkString s => some s
  | _ => none

/-- Embeds `handle_redis_array_query` (redis.rs lines 126-383): the
argument vector is reversed, the command name popped from its end, the
table-selected extraction shape run on the remainder, and the query
string/AST built from the original element order. -/
def handle_redis_array_query (commands_vec : List RFrame) :
    Except Unit QueryMessage :=
  match commands_vec with
  | .bulkString command :: args =>
    let (sh, query_type) := commandTable (command.map asciiUpper)
    let (query_values, primary_key) := runShape sh args.reverse
    .ok { query_string := List.intercalate [32] (commands_vec.filterMap RFrame.as_str),
          namespace_ := [],
          primary_key := primary_key,
          query_values := some query_values,
          projection := none,
          query_type := query_type,
          ast := some (.Commands (.List (toValueList commands_vec))) }
  | _ => .ok QueryMessage.empty

/-- Embeds `process_redis_frame_response` (redis.rs lines 385-423). -/
def process_redis_frame_response (frame : RFrame) : Except Unit QueryResponse :=
  match frame with
  | .simpleString string =>
    .ok { matching_query := none, result := some (.Strings string),
          error := none, response_meta := none }
  | .bulkString bulkstring =>
    .ok { matching_query := none, result := some (.Bytes bulkstring),
          error := none, response_meta := none }
  | .array frames =>
    .ok { matching_query := none, result := some (.List (toValueList frames)),
          error := none, response_meta := none }
  | .integer integer =>
    .ok { matching_query := none, result := some (.Integer integer .I32),
          error := none, response_meta := none }
  | .error error =>
    .ok { matching_query := none, result := none,
          error := some (.Strings error), response_meta := none }
  | .null => .ok QueryResponse.empty

/-- Embeds `process_redis_frame_query` (redis.rs lines 425-467);
`query_string` for the scalar variants is the frame's text
(`to_string` of an integer is its decimal rendering). -/
def process_redis_frame_query (frame : RFrame) : Except Unit QueryMessage :=
  match frame with
  | .simpleString string =>
    .ok { query_string := string, namespace_ := [], primary_key := [],
          query_values := none, projection := none, query_type := .ReadWrite, ast := none }
  | .bulkString bulkstring =>
    .ok { query_string := bulkstring, namespace_ := [], primary_key := [],
          query_values := none, projection := none, query_type := .ReadWrite, ast := none }
  | .array frames => handle_redis_array_query frames
  | .integer integer =>
    .ok { query_string := intDecimal integer, namespace_ := [], primary_key := [],
          query_values := none, projection := none, query_type := .ReadWrite, ast := none }
  | .error error =>
    .ok { query_string := error, namespace_ := [], primary_key := [],
          query_values := none, projection := none, query_type := .ReadWrite, ast := none }
  | .null => .ok QueryMessage.empty

/-- Embeds `get_redis_frame` (redis.rs lines 469-477). -/
def get_redis_frame (rf : Frame) : Except Unit RFrame :=
  match rf with
  | .Redis frame => .ok frame
  | _ => .error ()

mutual

/-- Embeds the `MessageValue → RedisFrame` conversion used by the rebuild
path, modelled from the spec as the inverse of `toValue` on the variants it
produces. -/
def valueToFrame : MessageValue → RFrame
  | .None => .null
  | .Bytes b => .bulkString b
  | .Strings s => .simpleString s
  | .Integer i _ => .integer i
  | .List l => .array (valueToFrameList l)
  | .Document _ => .null

/-- Elementwise conversion of a value list back to frames. -/
def valueToFrameList : List MessageValue → List RFrame
  | [] => []
  | x :: xs => valueToFrame x :: valueToFrameList xs

end

/-- Embeds `RedisCodec::build_redis_response_frame` (redis.rs lines
523-533). -/

def build_redis_response_frame (resp : QueryResponse) : RFrame :=
  match resp.result with
  | some result => valueToFrame result
  | none =>
    match resp.error with
    | some (.Strings s) => .error s
    | _ => .simpleString (strBytes ("OK"))

/-- Embeds `RedisCodec::build_redis_query_frame` (redis.rs lines 535-542). -/
def build_redis_query_frame (query : QueryMessage) : RFrame :=
  match query.ast with
  | some (.Commands (.List ast)) => .array (valueToFrameList ast)
  | _ => .simpleString query.query_string

/-- Embeds `RedisCodec::new` (redis.rs lines 493-499). -/
def RedisCodec.new (decode_type : DecodeType) : RedisCodec :=
  { decode_type := decode_type, enable_metadata := false, messages := [] }

/-- Embeds `RedisCodec::frame_to_message` (redis.rs lines 501-521). -/
def RedisCodec.frame_to_message (c : RedisCodec) (frame : RFrame) :
    Except Unit Message :=
  if c.enable_metadata then
    match c.decode_type with
    | .Response =>
      (process_redis_frame_response frame).map fun qr =>
        Message.new (.Response qr) false (.Redis frame)
    | .Query =>
      (process_redis_frame_query frame).map fun qm =>
        Message.new (.Query qm) false (.Redis frame)
  else
    .ok (Message.new .Unknown false (.Redis frame))

/-- Embeds `RedisCodec::encode_message` (redis.rs lines 480-491). -/
def RedisCodec.encode_message (_c : RedisCodec) (item : Message) :
    Except Unit RFrame :=
  if !item.modified then get_redis_frame item.original
  else
    match item.details with
    | .Query qm => .ok (build_redis_query_frame qm)
    | .Response qr => .ok (build_redis_response_frame qr)
    | .Unknown => get_redis_frame item.original

/-- Embeds the `loop` body of `Decoder::decode for RedisCodec` (redis.rs
lines 555-570), fuelled: every `decode_mut` success consumes at least one
byte, so fuel `b.length + 1` is never exhausted.  On "incomplete", the
batch is flushed only when it is non-empty and the buffer holds no pending
partial bytes (`src.remaining() != 0`). -/
def decodeLoopF : Nat → RedisCodec → List Nat →
    Except Unit (Option (List Message) × List Nat × RedisCodec)
  | 0, _, _ => .error ()
  | fuel + 1, c, b =>
    match decodeOne b with
    | .done frame rest =>
      match c.frame_to_message frame with
      | .ok m => decodeLoopF fuel { c with messages := c.messages ++ [m] } rest
      | .error e => .error e
    | .incomplete =>
      if c.messages.isEmpty || !b.isEmpty then .ok (none, b, c)
      else .ok (some c.messages, b, { c with messages := [] })
    | .fail => .error ()

/-- Embeds `Decoder::decode for RedisCodec` (redis.rs lines 551-571):
returns the optional flushed batch together with the un-consumed trailing
bytes and the updated codec state. -/
def RedisCodec.decode (c : RedisCodec) (b : List Nat) :
    Except Unit (Option (List Message) × List Nat × RedisCodec) :=
  decodeLoopF (b.length + 1) c b

/-- Embeds `Encoder::encode for RedisCodec` (redis.rs lines 573-582) with
`encode_raw` (lines 544-548): appends each message's serialization to the
output buffer, stopping at the first failing message. -/
def RedisCodec.encode (c : RedisCodec) (item : List Message) (dst : List Nat) :
    Except Unit (List Nat) :=
  item.foldlM (fun acc m => (c.encode_message m).map fun f => acc ++ encodeFrame f) dst

/-! ## Cassandra response rebuild (src/src/protocols/cassandra_protocol2.rs)

The `cassandra_proto` crate types (`Frame`, `ColSpec`, `RowsMetadata`,
`CBytes`, ...) and this older revision's `crate::message::Value` /
`QueryResponse` are external to the excerpted source and are modelled from
the spec (sections 3 and 4.4) with the fields the source touches.  Rust
panics (`unreachable!()`, `.unwrap()` on a missing entry) are modelled by
the `RebuildResult.panic` constructor: the source has no error channel in
`build_cassandra_response_frame` (it returns a bare `Frame`). -/

/-- Big-endian byte string of width `w` for the value `n` (mod `256 ^ w`):
the `byteorder::BigEndian` writers. -/
def beBytes : Nat → Nat → List Nat
  | 0, _ => []
  | w + 1, n => beBytes w (n / 256) ++ [n % 256]

/-- Value of a big-endian byte string (most significant byte first). -/
def beVal (l : List Nat) : Nat := l.foldl (fun a b => a * 256 + b) 0

/-- Two's-complement big-endian encoding of an i64 (`write_i64::<BigEndian>`). -/
def i64be (x : Int) : List Nat := beBytes 8 (x.emod (2 ^ 64)).toNat

/-- Two's-complement big-endian encoding of an i32 (`write_i32::<BigEndian>`,
also `CInt::into_cbytes`). -/
def i32be (x : Int) : List Nat := beBytes 4 (x.emod (2 ^ 32)).toNat

/-- IEEE-754 bit pattern written big-endian (`write_f64::<BigEndian>`); the
float is carried as its 64-bit pattern, which is what the writer emits. -/
def f64be (bits : Nat) : List Nat := beBytes 8 (bits % 2 ^ 64)

/-- Modelled from the spec: a `chrono` timestamp carried together with its
RFC-2822 text rendering (`to_rfc2822` is external to the repository). -/
structure TimestampM where
  rfc2822 : List Nat
deriving Repr, DecidableEq

mutual

/-- Modelled from the spec: this revision's `crate::message::Value` tagged
union (spec section 3), the cassandra-side Semantic Value. -/
inductive CValue where
  | NULL
  | Bytes (b : List Nat)
  | Strings (s : List Nat)
  | Integer (i : Int)
  | Float (bits : Nat)
  | Boolean (b : Bool)
  | Timestamp (t : TimestampM)
  | Rows (r : List (List CValue))
  | Document (d : List (List Nat × CValue))

end

/-- Embeds the per-cell serialization match of
`build_cassandra_response_frame` (cassandra_protocol2.rs lines 56-93);
`none` models the `unreachable!()` panic on nested `Rows`/`Document`. -/
def cellBytes : CValue → Option (List Nat)
  | .NULL => some (i32be (-1))
  | .Bytes x => some x
  | .Strings x => some x
  | .Integer x => some (i64be x)
  | .Float x => some (f64be x)
  | .Boolean x => some (i32be (if x then 1 else 0))
  | .Timestamp x => some x.rfc2822
  | .Rows _ => none
  | .Document _ => none

/-- Modelled from the spec: `ColType` (only `Ascii` is used). -/
inductive ColType where
  | Ascii
deriving Repr, DecidableEq

/-- Modelled from the spec: `ColTypeOption`. -/
structure ColTypeOption where
  id : ColType
  value : Option Unit
deriving Repr, DecidableEq

/-- Modelled from the spec: `ColSpec` — per-column metadata. -/
structure ColSpec where
  ksname : Option (List Nat)
  tablename : Option (List Nat)
  name : List Nat
  col_type : ColTypeOption
deriving Repr, DecidableEq

/-- Modelled from the spec: `RowsMetadata`. -/
structure RowsMetadata where
  flags : Int
  columns_count : Int
  paging_state : Option (List Nat)
  global_table_space : Option (List (List Nat))
  col_specs : List ColSpec
deriving Repr, DecidableEq

/-- Modelled from the spec: `BodyResResultRows` — the rows result body. -/
structure BodyResResultRows where
  metadata : RowsMetadata
  rows_count : Int
  rows_content : List (List (List Nat))
deriving Repr, DecidableEq

/-- Modelled from the spec: `ResResultBody` (only the `Rows` arm is built). -/
inductive ResResultBody where
  | Rows (b : BodyResResultRows)
deriving Repr, DecidableEq

/-- Modelled from the spec: frame version tag. -/
inductive Version where
  | Request
  | Response
deriving Repr, DecidableEq

/-- Modelled from the spec: frame opcode (only `Result` is built). -/
inductive Opcode where
  | Result
  | Query
  | Other
deriving Repr, DecidableEq

/-- Modelled from the spec: the body is either raw inbound bytes or the
structured result body (whose byte serialization `into_cbytes` is performed
by the external crate). -/
inductive FrameBody where
  | raw (bytes : List Nat)
  | result (r : ResResultBody)
deriving Repr, DecidableEq

/-- Modelled from the spec: `cassandra_proto::frame::Frame` — fixed header
plus body (spec section 3, Raw Frame for the tabular protocol). -/
structure CassFrame where
  version : Version
  flags : List Nat
  opcode : Opcode
  stream : Nat
  body : FrameBody
  tracing_id : Option (List Nat)
  warnings : List (List Nat)
deriving Repr, DecidableEq

/-- Modelled from the spec: `crate::cassandra_protocol::RawFrame` — the
protocol-tagged original frame held by a query message. -/
inductive RawFrame where
  | CASSANDRA (f : CassFrame)
  | NONE
deriving Repr, DecidableEq

/-- Modelled from the spec: the fields of this revision's `QueryMessage`
that the rebuild path reads (original frame, namespace path, projection). -/
structure CQueryMessage where
  original : RawFrame
  namespace_ : List (List Nat)
  projection : Option (List (List Nat))

/-- Modelled from the spec: this revision's `QueryResponse`. -/
structure CQueryResponse where
  matching_query : Option CQueryMessage
  result : Option CValue
  error : Option CValue
  response_meta : Option CValue

/-- Outcome of the rebuild: a frame, or a Rust panic (`unreachable!()` /
`unwrap()` on `None`). -/
inductive RebuildResult where
  | frame (f : CassFrame)
  | panic

/-- Embeds the column-metadata synthesis (cassandra_protocol2.rs lines
32-42): each projection entry looks up `namespace.get(0).unwrap()` and
`namespace.get(1).unwrap()`; `none` models the `unwrap` panic, which can
only fire when the projection is non-empty. -/
def buildColSpecs (proj : List (List Nat)) (ns : List (List Nat)) :
    Option (List ColSpec) :=
  proj.mapM fun x =>
    match ns.get? 0, ns.get? 1 with
    | some ks, some tb =>
      some { ksname := some ks, tablename := some tb, name := x,
             col_type := { id := .Ascii, value := none } }
    | _, _ => none

/-- Serializes one row of cells (cassandra_protocol2.rs lines 55-95). -/
def rowCells (r : List CValue) : Option (List (List Nat)) := r.mapM cellBytes

/-- Serializes all rows (cassandra_protocol2.rs lines 54-97). -/
def rowsContent (rows : List (List CValue)) : Option (List (List (List Nat))) :=
  rows.mapM rowCells

/-- Embeds `CassandraCodec2::build_cassandra_response_frame`
(cassandra_protocol2.rs lines 27-121).  Every guard that fails falls
through to the final `unreachable!()` (or hits an `unwrap` on `None`),
modelled as `RebuildResult.panic`. -/
def build_cassandra_response_frame (resp : CQueryResponse) : RebuildResult :=
  match resp.result with
  | some (.Rows rows) =>
    match resp.matching_query with
    | some query =>
      match query.original with
      | .CASSANDRA query_frame =>
        match query.projection with
        | some proj =>
          match buildColSpecs proj query.namespace_ with
          | some col_spec =>
            match rows.get? 0 with
            | some row0 =>
              let count : Int := row0.length
              let metadata : RowsMetadata :=
                { flags := 0, columns_count := count, paging_state := none,
                  global_table_space := none, col_specs := col_spec }
              match rowsContent rows with
              | some result_bytes =>
                .frame { version := .Response, flags := query_frame.flags,
                         opcode := .Result, stream := query_frame.stream,
                         body := .result (.Rows
                           { metadata := metadata, rows_count := rows.length,
                             rows_content := result_bytes }),
                         tracing_id := query_frame.tracing_id, warnings := [] }
              | none => .panic
            | none => .panic
          | none => .panic
        | none => .panic
      | _ => .panic
    | none => .panic
  | _ => .panic

/-! ## Lemmas about decimal fields -/

theorem natVal_natDecimal (n : Nat) : natVal (natDecimal n) = n := by
  unfold natDecimal natVal
  by_cases h : n = 0
  · simp [h, Nat.ofDigits]
  · simp only [h, if_false, List.map_reverse, List.reverse_reverse, List.map_map]
    have : ((fun c => c - 48) ∘ fun d => d + 48) = id := by
      funext d; simp
    rw [this, List.map_id, Nat.ofDigits_digits]

theorem natDecimal_mem (n : Nat) : ∀ c ∈ natDecimal n, 48 ≤ c ∧ c ≤ 57 := by
  intro c hc
  unfold natDecimal at hc
  by_cases h : n = 0
  · simp [h] at hc
    omega
  · simp only [h, if_false, List.mem_reverse, List.mem_map] at hc
    obtain ⟨d, hd, rfl⟩ := hc
    have := Nat.digits_lt_base (by norm_num) hd
    omega

theorem natDecimal_ne_nil (n : Nat) : natDecimal n ≠ [] := by
  unfold natDecimal
  by_cases h : n = 0
  · simp [h]
  · simp only [h, if_false]
    simp [Nat.digits_ne_nil_iff_ne_zero, h]

theorem parseNat_natDecimal (n : Nat) : parseNat (natDecimal n) = some n := by
  unfold parseNat
  simp [natVal_natDecimal]

theorem parseNat_sound {l : List Nat} {n : Nat} (h : parseNat l = some n) :
    l = natDecimal n := by
  simp only [parseNat] at h
  by_cases hc : natDecimal (natVal l) = l
  · rw [if_pos hc] at h
    injection h with h'
    rw [← h']
    exact hc.symm
  · rw [if_neg hc] at h
    cases h

theorem intDecimal_mem (i : Int) : ∀ c ∈ intDecimal i, (48 ≤ c ∧ c ≤ 57) ∨ c = 45 := by
  intro c hc
  unfold intDecimal at hc
  by_cases h : i < 0
  · simp only [h, if_pos] at hc
    rcases List.mem_cons.mp hc with rfl | hc
    · right; rfl
    · left; exact natDecimal_mem _ c hc
  · simp only [h, if_neg, if_false] at hc
    left; exact natDecimal_mem _ c hc

theorem intVal_intDecimal (i : Int) : intVal (intDecimal i) = i := by
  unfold intDecimal
  by_cases h : i < 0
  · simp only [h, if_pos, intVal, if_true]
    rw [natVal_natDecimal]
    omega
  · simp only [h, if_false]
    rcases hd : natDecimal i.toNat with _ | ⟨c, rest⟩
    · exact absurd hd (natDecimal_ne_nil _)
    · have hc : 48 ≤ c ∧ c ≤ 57 :=
        natDecimal_mem _ c (by rw [hd]; exact List.mem_cons_self c rest)
      have hc45 : c ≠ 45 := by omega
      show intVal (c :: rest) = i
      rw [intVal, if_neg hc45, ← hd, natVal_natDecimal]
      omega

theorem parseInt_intDecimal (i : Int) (h₁ : -(2 ^ 63) ≤ i) (h₂ : i < 2 ^ 63) :
    parseInt (intDecimal i) = some i := by
  simp only [parseInt]
  rw [intVal_intDecimal, if_pos ⟨rfl, h₁, h₂⟩]

theorem parseInt_sound {l : List Nat} {i : Int} (h : parseInt l = some i) :
    l = intDecimal i ∧ -(2 ^ 63) ≤ i ∧ i < 2 ^ 63 := by
  simp only [parseInt] at h
  by_cases hc : intDecimal (intVal l) = l ∧ -(2 ^ 63) ≤ intVal l ∧ intVal l < 2 ^ 63
  · rw [if_pos hc] at h
    injection h with h'
    rw [← h']
    exact ⟨hc.1.symm, hc.2⟩
  · rw [if_neg hc] at h
    cases h

theorem natDecimal_no13 (n : Nat) : ∀ c ∈ natDecimal n, c ≠ 13 := by
  intro c hc
  have := natDecimal_mem n c hc
  omega

theorem intDecimal_no13 (i : Int) : ∀ c ∈ intDecimal i, c ≠ 13 := by
  intro c hc
  rcases intDecimal_mem i c hc with h | h <;> omega

theorem natDecimal_ne_neg1 (n : Nat) : natDecimal n ≠ [45, 49] := by
  intro h
  have := natDecimal_mem n 45 (by rw [h]; simp)
  omega

/-! ## Lemmas about CRLF line scanning -/

theorem readLine_sound : ∀ {b l r : List Nat}, readLine b = .done l r →
    b = l ++ 13 :: 10 :: r ∧ ∀ c ∈ l, c ≠ 13 := by
  intro b
  induction b with
  | nil => intro l r h; cases h
  | cons c rest ih =>
    intro l r h
    simp only [readLine] at h
    by_cases hc : c = 13
    · rw [if_pos hc] at h
      cases rest with
      | nil => cases h
      | cons d rest2 =>
        dsimp only at h
        by_cases hd : d = 10
        · rw [if_pos hd] at h
          injection h with h1 h2
          subst h1; subst h2; subst hc; subst hd
          exact ⟨rfl, by simp⟩
        · rw [if_neg hd] at h; cases h
    · rw [if_neg hc] at h
      rcases hrl : readLine rest with ⟨l', r'⟩ | _ | _ <;> rw [hrl] at h
      · injection h with h1 h2
        obtain ⟨hb, hmem⟩ := ih hrl
        subst h1; subst h2
        refine ⟨by rw [hb, List.cons_append], ?_⟩
        intro x hx
        rcases List.mem_cons.mp hx with rfl | hx
        · exact hc
        · exact hmem x hx
      · cases h
      · cases h

theorem readLine_complete : ∀ {l : List Nat}, (∀ c ∈ l, c ≠ 13) →
    ∀ r, readLine (l ++ 13 :: 10 :: r) = .done l r := by
  intro l
  induction l with
  | nil => intro _ r; rfl
  | cons c rest ih =>
    intro hmem r
    have hc : c ≠ 13 := hmem c (List.mem_cons_self c rest)
    rw [List.cons_append]
    simp only [readLine]
    rw [if_neg hc, ih (fun x hx => hmem x (List.mem_cons_of_mem c hx)) r]

theorem readLine_prefix_incomplete : ∀ {l p : List Nat}, (∀ c ∈ l, c ≠ 13) →
    p <+: l ++ [13, 10] → p ≠ l ++ [13, 10] → readLine p = .incomplete := by
  intro l
  induction l with
  | nil =>
    intro p _ hp hne
    cases p with
    | nil => rfl
    | cons x p' =>
      obtain ⟨hx, hp'⟩ := List.cons_prefix_cons.mp hp
      subst hx
      cases p' with
      | nil => rfl
      | cons y p'' =>
        obtain ⟨hy, hp''⟩ := List.cons_prefix_cons.mp hp'
        subst hy
        have : p'' = [] := List.prefix_nil.mp hp''
        subst this
        exact absurd rfl hne
  | cons a l' ih =>
    intro p hmem hp hne
    have ha : a ≠ 13 := hmem a (List.mem_cons_self a l')
    cases p with
    | nil => rfl
    | cons x p' =>
      rw [List.cons_append] at hp hne
      obtain ⟨hx, hp'⟩ := List.cons_prefix_cons.mp hp
      subst hx
      simp only [readLine]
      rw [if_neg ha,
        ih (fun c hc => hmem c (List.mem_cons_of_mem _ hc)) hp'
          (fun he => hne (by rw [he]))]

/-- Splitting a prefix of a concatenation at the boundary. -/
theorem prefix_append_cases : ∀ {α : Type} {a b p : List α}, p <+: a ++ b →
    p <+: a ∨ ∃ q, p = a ++ q ∧ q <+: b := by
  intro α a
  induction a with
  | nil =>
    intro b p hp
    exact Or.inr ⟨p, rfl, hp⟩
  | cons x a' ih =>
    intro b p hp
    match p, hp with
    | [], _ => exact Or.inl (List.nil_prefix)
    | y :: p', hp =>
      obtain ⟨hy, hp'⟩ := List.cons_prefix_cons.mp hp
      subst hy
      rcases ih hp' with h | ⟨q, hq, hqb⟩
      · exact Or.inl (List.cons_prefix_cons.mpr ⟨rfl, h⟩)
      · exact Or.inr ⟨q, by rw [hq, List.cons_append], hqb⟩

/-! ## Soundness of the frame decoder: a decoded frame re-serializes to
exactly the consumed bytes -/

theorem decodeN_sound {step : List Nat → DRes}
    (hstep : ∀ {b f r}, step b = .done f r → b = encodeFrame f ++ r ∧ validF f = true) :
    ∀ {n b fs rest}, decodeN step n b = .done fs rest →
      b = encodeList fs ++ rest ∧ validList fs = true ∧ fs.length = n := by
  intro n
  induction n with
  | zero =>
    intro b fs rest h
    simp only [decodeN] at h
    injection h with h1 h2
    subst h1; subst h2
    exact ⟨rfl, rfl, rfl⟩
  | succ k ih =>
    intro b fs rest h
    rcases hs : step b with ⟨f, r⟩ | _ | _
    · rcases hn : decodeN step k r with ⟨fs', r2⟩ | _ | _
      · simp only [decodeN, hs, hn] at h
        injection h with h1 h2
        subst h1; subst h2
        obtain ⟨hb, hv⟩ := hstep hs
        obtain ⟨hr, hvl, hlen⟩ := ih hn
        refine ⟨?_, ?_, ?_⟩
        · rw [hb, hr, encodeList, List.append_assoc]
        · simp [validList, hv, hvl]
        · simp [hlen]
      · simp only [decodeN, hs, hn] at h; cases h
      · simp only [decodeN, hs, hn] at h; cases h
    · simp only [decodeN, hs] at h; cases h
    · simp only [decodeN, hs] at h; cases h

theorem decodeF_sound : ∀ fuel, ∀ {b f rest}, decodeF fuel b = .done f rest →
    b = encodeFrame f ++ rest ∧ validF f = true := by
  intro fuel
  induction fuel with
  | zero => intro b f rest h; cases h
  | succ fl ih =>
    intro b f rest h
    cases b with
    | nil => cases h
    | cons c cs =>
      simp only [decodeF] at h
      split_ifs at h with h43 h45 h58 h36 h42
      · -- simple string
        subst h43
        rcases hrl : readLine cs with ⟨l, r⟩ | _ | _
        · simp only [hrl] at h
          injection h with h1 h2
          subst h1; subst h2
          obtain ⟨hcs, hno⟩ := readLine_sound hrl
          refine ⟨?_, ?_⟩
          · rw [hcs]; simp [encodeFrame, List.append_assoc]
          · simp only [validF, List.all_eq_true, decide_eq_true_eq]
            exact hno
        · simp only [hrl] at h; cases h
        · simp only [hrl] at h; cases h
      · -- error
        subst h45
        rcases hrl : readLine cs with ⟨l, r⟩ | _ | _
        · simp only [hrl] at h
          injection h with h1 h2
          subst h1; subst h2
          obtain ⟨hcs, hno⟩ := readLine_sound hrl
          refine ⟨?_, ?_⟩
          · rw [hcs]; simp [encodeFrame, List.append_assoc]
          · simp only [validF, List.all_eq_true, decide_eq_true_eq]
            exact hno
        · simp only [hrl] at h; cases h
        · simp only [hrl] at h; cases h
      · -- integer
        subst h58
        rcases hrl : readLine cs with ⟨l, r⟩ | _ | _
        · rcases hpi : parseInt l with _ | i
          · simp only [hrl, hpi] at h; cases h
          · simp only [hrl, hpi] at h
            injection h with h1 h2
            subst h1; subst h2
            obtain ⟨hcs, _⟩ := readLine_sound hrl
            obtain ⟨hl, hlo, hhi⟩ := parseInt_sound hpi
            refine ⟨?_, ?_⟩
            · rw [hcs, hl]; simp [encodeFrame, List.append_assoc]
            · simp only [validF, decide_eq_true_eq]
              exact ⟨hlo, hhi⟩
        · simp only [hrl] at h; cases h
        · simp only [hrl] at h; cases h
      · -- bulk string / null sentinel
        subst h36
        rcases hrl : readLine cs with ⟨l, r⟩ | _ | _
        · obtain ⟨hcs, _⟩ := readLine_sound hrl
          by_cases hl : l = [45, 49]
          · simp only [hrl, hl, if_pos rfl] at h
            injection h with h1 h2
            subst h1; subst h2
            refine ⟨?_, rfl⟩
            rw [hcs, hl]
            simp [encodeFrame]
          · rcases hpn : parseNat l with _ | n
            · simp only [hrl, if_neg hl, hpn] at h; cases h
            · have hl' := parseNat_sound hpn
              by_cases hlen : r.length < n
              · simp only [hrl, if_neg hl, hpn, if_pos hlen] at h; cases h
              · rcases hdrop : r.drop n with _ | ⟨d, dr⟩
                · simp only [hrl, if_neg hl, hpn, if_neg hlen, hdrop] at h; cases h
                · by_cases hd13 : d = 13
                  · subst hd13
                    rcases dr with _ | ⟨d2, dr2⟩
                    · simp only [hrl, if_neg hl, hpn, if_neg hlen, hdrop] at h
                      cases h
                    · by_cases hd2 : d2 = 10
                      · subst hd2
                        simp only [hrl, if_neg hl, hpn, if_neg hlen, hdrop] at h
                        injection h with h1 h2
                        subst h1; subst h2
                        have hnr : n ≤ r.length := Nat.le_of_not_lt hlen
                        obtain ⟨s, hstake, hr'⟩ :
                            ∃ s, List.take n r = s ∧ r = s ++ (13 :: 10 :: dr2) := by
                          refine ⟨List.take n r, rfl, ?_⟩
                          conv_lhs => rw [← List.take_append_drop n r]
                          rw [hdrop]
                        have hslen : s.length = n := by
                          rw [← hstake, List.length_take]; omega
                        refine ⟨?_, rfl⟩
                        rw [hcs, hl', hstake, hr']
                        simp only [encodeFrame, hslen]
                        simp [List.append_assoc]
                      · simp only [hrl, if_neg hl, hpn, if_neg hlen, hdrop] at h
                        split at h
                        · cases h
                        · cases h
                        · rename_i heq
                          injection heq with e1 e2
                          injection e2 with e3 e4
                          exact absurd e3 hd2
                        · cases h
                  · simp only [hrl, if_neg hl, hpn, if_neg hlen, hdrop] at h
                    split at h
                    · cases h
                    · cases h
                    · rename_i heq
                      injection heq with e1 e2
                      exact absurd e1 hd13
                    · cases h
        · simp only [hrl] at h; cases h
        · simp only [hrl] at h; cases h
      · -- array
        subst h42
        rcases hrl : readLine cs with ⟨l, r⟩ | _ | _
        · rcases hpn : parseNat l with _ | n
          · simp only [hrl, hpn] at h; cases h
          · rcases hdn : decodeN (decodeF fl) n r with ⟨fs, r2⟩ | _ | _
            · simp only [hrl, hpn, hdn] at h
              injection h with h1 h2
              subst h1; subst h2
              obtain ⟨hcs, _⟩ := readLine_sound hrl
              have hl' := parseNat_sound hpn
              obtain ⟨hr, hvl, hlenn⟩ := decodeN_sound (fun hx => ih hx) hdn
              refine ⟨?_, ?_⟩
              · rw [hcs, hl', hr, ← hlenn]
                simp [encodeFrame, List.append_assoc]
              · simp only [validF]
                exact hvl
            · simp only [hrl, hpn, hdn] at h; cases h
            · simp only [hrl, hpn, hdn] at h; cases h
        · simp only [hrl] at h; cases h
        · simp only [hrl] at h; cases h
/-! ## Unfolding equations for the decoder head byte -/

theorem decodeF_nil (fl : Nat) : decodeF fl [] = .incomplete := by
  cases fl <;> rfl

theorem decodeF_tag43 (fl : Nat) (cs : List Nat) :
    decodeF (fl + 1) (43 :: cs) =
      (match readLine cs with
       | .done l r => .done (.simpleString l) r
       | .incomplete => .incomplete
       | .fail => .fail) := rfl

theorem decodeF_tag45 (fl : Nat) (cs : List Nat) :
    decodeF (fl + 1) (45 :: cs) =
      (match readLine cs with
       | .done l r => .done (.error l) r
       | .incomplete => .incomplete
       | .fail => .fail) := rfl

theorem decodeF_tag58 (fl : Nat) (cs : List Nat) :
    decodeF (fl + 1) (58 :: cs) =
      (match readLine cs with
       | .done l r =>
         match parseInt l with
         | some i => .done (.integer i) r
         | none => .fail
       | .incomplete => .incomplete
       | .fail => .fail) := rfl

theorem decodeF_tag36 (fl : Nat) (cs : List Nat) :
    decodeF (fl + 1) (36 :: cs) =
      (match readLine cs with
       | .done l r =>
         if l = [45, 49] then .done .null r
         else
           match parseNat l with
           | some n =>
             if r.length < n then .incomplete
             else
               match r.drop n with
               | [] => .incomplete
               | [13] => .incomplete
               | 13 :: 10 :: r2 => .done (.bulkString (r.take n)) r2
               | _ => .fail
           | none => .fail
       | .incomplete => .incomplete
       | .fail => .fail) := rfl

theorem decodeF_tag42 (fl : Nat) (cs : List Nat) :
    decodeF (fl + 1) (42 :: cs) =
      (match readLine cs with
       | .done l r =>
         match parseNat l with
         | some n =>
           match decodeN (decodeF fl) n r with
           | .done fs r2 => .done (.array fs) r2
           | .incomplete => .incomplete
           | .fail => .fail
         | none => .fail
       | .incomplete => .incomplete
       | .fail => .fail) := rfl

/-! ## Length facts about the serializer -/

theorem encodeFrame_length_pos (f : RFrame) : 1 ≤ (encodeFrame f).length := by
  cases f <;> simp [encodeFrame]

theorem encodeList_mem_le {x : RFrame} : ∀ {xs : List RFrame}, x ∈ xs →
    (encodeFrame x).length ≤ (encodeList xs).length := by
  intro xs
  induction xs with
  | nil => intro h; cases h
  | cons y ys ih =>
    intro h
    rw [encodeList, List.length_append]
    rcases List.mem_cons.mp h with rfl | h
    · omega
    · have := ih h
      omega

theorem natDecimal_length_pos (n : Nat) : 1 ≤ (natDecimal n).length := by
  rcases h : natDecimal n with _ | _
  · exact absurd h (natDecimal_ne_nil n)
  · simp

/-! ## Completeness of the frame decoder on serialized frames -/

theorem decodeN_complete {fl : Nat}
    (ih : ∀ {f : RFrame} (rest : List Nat), validF f = true →
      decodeF fl (encodeFrame f ++ rest) = .done f rest ∨
      (decodeF fl (encodeFrame f ++ rest) = .incomplete ∧
        fl ≤ (encodeFrame f).length)) :
    ∀ {xs : List RFrame} (rest : List Nat), validList xs = true →
      decodeN (decodeF fl) xs.length (encodeList xs ++ rest) = .done xs rest ∨
      (decodeN (decodeF fl) xs.length (encodeList xs ++ rest) = .incomplete ∧
        ∃ x ∈ xs, fl ≤ (encodeFrame x).length) := by
  intro xs
  induction xs with
  | nil =>
    intro rest _
    left
    simp [decodeN, encodeList]
  | cons x xs' ihl =>
    intro rest hv
    have hvx : validF x = true := by
      simp only [validList, Bool.and_eq_true] at hv
      exact hv.1
    have hvl : validList xs' = true := by
      simp only [validList, Bool.and_eq_true] at hv
      exact hv.2
    have hb : encodeList (x :: xs') ++ rest =
        encodeFrame x ++ (encodeList xs' ++ rest) := by
      rw [encodeList, List.append_assoc]
    rw [hb, List.length_cons]
    rcases ih (encodeList xs' ++ rest) hvx with hdone | ⟨hinc, hle⟩
    · rcases ihl rest hvl with hdone2 | ⟨hinc2, x', hx', hle'⟩
      · left
        simp only [decodeN, hdone, hdone2]
      · right
        refine ⟨?_, x', List.mem_cons_of_mem x hx', hle'⟩
        simp only [decodeN, hdone, hinc2]
    · right
      refine ⟨?_, x, List.mem_cons_self x xs', hle⟩
      simp only [decodeN, hinc]

theorem decodeF_complete : ∀ fuel, ∀ {f : RFrame} (rest : List Nat),
    validF f = true →
    decodeF fuel (encodeFrame f ++ rest) = .done f rest ∨
    (decodeF fuel (encodeFrame f ++ rest) = .incomplete ∧
      fuel ≤ (encodeFrame f).length) := by
  intro fuel
  induction fuel with
  | zero =>
    intro f rest _
    right
    exact ⟨rfl, Nat.zero_le _⟩
  | succ fl ih =>
    intro f rest hv
    cases f with
    | simpleString s =>
      left
      have hno : ∀ c ∈ s, c ≠ 13 := by
        simpa [validF, List.all_eq_true] using hv
      have hb : encodeFrame (.simpleString s) ++ rest =
          43 :: (s ++ 13 :: 10 :: rest) := by
        simp [encodeFrame]
      rw [hb, decodeF_tag43, readLine_complete hno rest]
    | error s =>
      left
      have hno : ∀ c ∈ s, c ≠ 13 := by
        simpa [validF, List.all_eq_true] using hv
      have hb : encodeFrame (.error s) ++ rest =
          45 :: (s ++ 13 :: 10 :: rest) := by
        simp [encodeFrame]
      rw [hb, decodeF_tag45, readLine_complete hno rest]
    | integer i =>
      left
      have hrange : -(2 ^ 63) ≤ i ∧ i < 2 ^ 63 := by
        simpa [validF] using hv
      have hb : encodeFrame (.integer i) ++ rest =
          58 :: (intDecimal i ++ 13 :: 10 :: rest) := by
        simp [encodeFrame]
      rw [hb, decodeF_tag58,
        readLine_complete (intDecimal_no13 i) rest]
      simp only [parseInt_intDecimal i hrange.1 hrange.2]
    | bulkString s =>
      left
      have hb : encodeFrame (.bulkString s) ++ rest =
          36 :: (natDecimal s.length ++ 13 :: 10 :: (s ++ 13 :: 10 :: rest)) := by
        simp [encodeFrame]
      rw [hb, decodeF_tag36,
        readLine_complete (natDecimal_no13 s.length) (s ++ 13 :: 10 :: rest)]
      simp only [natDecimal_ne_neg1 s.length, if_false, parseNat_natDecimal]
      have hlen : ¬(s ++ 13 :: 10 :: rest).length < s.length := by
        simp [List.length_append]
      rw [if_neg hlen]
      have hdrop : (s ++ 13 :: 10 :: rest).drop s.length = 13 :: 10 :: rest :=
        List.drop_left s (13 :: 10 :: rest)
      have htake : (s ++ 13 :: 10 :: rest).take s.length = s :=
        List.take_left s (13 :: 10 :: rest)
      rw [hdrop, htake]
    | null =>
      left
      have hb : encodeFrame .null ++ rest =
          36 :: ([45, 49] ++ 13 :: 10 :: rest) := by
        simp [encodeFrame]
      rw [hb, decodeF_tag36, readLine_complete (by simp) rest]
      rfl
    | array xs =>
      have hvl : validList xs = true := by
        simpa [validF] using hv
      have hb : encodeFrame (.array xs) ++ rest =
          42 :: (natDecimal xs.length ++ 13 :: 10 :: (encodeList xs ++ rest)) := by
        simp [encodeFrame]
      rw [hb, decodeF_tag42,
        readLine_complete (natDecimal_no13 xs.length) (encodeList xs ++ rest)]
      simp only [parseNat_natDecimal]
      rcases decodeN_complete (fun rest hvf => ih rest hvf) rest hvl with
        hdone | ⟨hinc, x, hx, hle⟩
      · left
        simp only [hdone]
      · right
        constructor
        · simp only [hinc]
        · have h1 := encodeList_mem_le hx
          have h2 := natDecimal_length_pos xs.length
          simp only [encodeFrame, List.length_cons, List.length_append]
          omega

/-! ## Strict prefixes of a serialized frame decode to "incomplete" -/

theorem prefix_crlf_cases : ∀ {t : List Nat}, t <+: [13, 10] → t ≠ [13, 10] →
    t = [] ∨ t = [13] := by
  intro t hp hne
  cases t with
  | nil => exact Or.inl rfl
  | cons x t' =>
    obtain ⟨hx, hp'⟩ := List.cons_prefix_cons.mp hp
    subst hx
    cases t' with
    | nil => exact Or.inr rfl
    | cons y t'' =>
      obtain ⟨hy, hp''⟩ := List.cons_prefix_cons.mp hp'
      subst hy
      have : t'' = [] := List.prefix_nil.mp hp''
      subst this
      exact absurd rfl hne

theorem decodeN_prefix_incomplete {fl : Nat}
    (hP : ∀ {f : RFrame} {p : List Nat}, validF f = true → p <+: encodeFrame f →
      p ≠ encodeFrame f → decodeF fl p = .incomplete)
    (hC : ∀ {f : RFrame} (rest : List Nat), validF f = true →
      decodeF fl (encodeFrame f ++ rest) = .done f rest ∨
      decodeF fl (encodeFrame f ++ rest) = .incomplete) :
    ∀ {xs : List RFrame} {q : List Nat}, validList xs = true →
      q <+: encodeList xs → q ≠ encodeList xs →
      decodeN (decodeF fl) xs.length q = .incomplete := by
  intro xs
  induction xs with
  | nil =>
    intro q _ hq hne
    exact absurd (List.prefix_nil.mp hq) hne
  | cons x xs' ih =>
    intro q hv hq hne
    have hvx : validF x = true := by
      simp only [validList, Bool.and_eq_true] at hv
      exact hv.1
    have hvl : validList xs' = true := by
      simp only [validList, Bool.and_eq_true] at hv
      exact hv.2
    rw [encodeList] at hq hne
    rcases prefix_append_cases hq with hqa | ⟨q', rfl, hq'⟩
    · by_cases heq : q = encodeFrame x
      · subst heq
        rcases hC [] hvx with hdone | hinc
        · rw [List.append_nil] at hdone
          cases xs' with
          | nil =>
            exact absurd (by simp [encodeList]) hne
          | cons y ys =>
            simp only [List.length_cons, decodeN, hdone, decodeF_nil]
        · rw [List.append_nil] at hinc
          simp only [List.length_cons, decodeN, hinc]
      · have hstep := hP hvx hqa heq
        simp only [List.length_cons, decodeN, hstep]
    · have hne' : q' ≠ encodeList xs' := by
        intro hcontra
        exact hne (by rw [hcontra])
      rcases hC q' hvx with hdone | hinc
      · simp only [List.length_cons, decodeN, hdone, ih hvl hq' hne']
      · simp only [List.length_cons, decodeN, hinc]

theorem decodeF_prefix_incomplete : ∀ fuel, ∀ {f : RFrame} {p : List Nat},
    validF f = true → p <+: encodeFrame f → p ≠ encodeFrame f →
    decodeF fuel p = .incomplete := by
  intro fuel
  induction fuel with
  | zero => intro f p _ _ _; rfl
  | succ fl ih =>
    intro f p hv hp hne
    cases p with
    | nil => exact decodeF_nil (fl + 1)
    | cons c q =>
      cases f with
      | simpleString s =>
        have hno : ∀ a ∈ s, a ≠ 13 := by
          simpa [validF, List.all_eq_true] using hv
        rw [show encodeFrame (.simpleString s) = 43 :: (s ++ [13, 10]) from rfl]
          at hp hne
        obtain ⟨hc, hq⟩ := List.cons_prefix_cons.mp hp
        subst hc
        rw [decodeF_tag43,
          readLine_prefix_incomplete hno hq (fun he => hne (by rw [he]))]
      | error s =>
        have hno : ∀ a ∈ s, a ≠ 13 := by
          simpa [validF, List.all_eq_true] using hv
        rw [show encodeFrame (.error s) = 45 :: (s ++ [13, 10]) from rfl]
          at hp hne
        obtain ⟨hc, hq⟩ := List.cons_prefix_cons.mp hp
        subst hc
        rw [decodeF_tag45,
          readLine_prefix_incomplete hno hq (fun he => hne (by rw [he]))]
      | integer i =>
        rw [show encodeFrame (.integer i) = 58 :: (intDecimal i ++ [13, 10]) from rfl]
          at hp hne
        obtain ⟨hc, hq⟩ := List.cons_prefix_cons.mp hp
        subst hc
        rw [decodeF_tag58,
          readLine_prefix_incomplete (intDecimal_no13 i) hq (fun he => hne (by rw [he]))]
      | null =>
        rw [show encodeFrame .null = 36 :: ([45, 49] ++ [13, 10]) from rfl]
          at hp hne
        obtain ⟨hc, hq⟩ := List.cons_prefix_cons.mp hp
        subst hc
        rw [decodeF_tag36,
          readLine_prefix_incomplete (by simp) hq (fun he => hne (by rw [he]))]
      | bulkString s =>
        rw [show encodeFrame (.bulkString s) =
          36 :: ((natDecimal s.length ++ [13, 10]) ++ (s ++ [13, 10])) from by
            simp [encodeFrame]] at hp hne
        obtain ⟨hc, hq⟩ := List.cons_prefix_cons.mp hp
        subst hc
        rw [decodeF_tag36]
        rcases prefix_append_cases hq with hqa | ⟨q', rfl, hq'⟩
        · by_cases heq : q = natDecimal s.length ++ [13, 10]
          · subst heq
            rw [readLine_complete (natDecimal_no13 s.length) []]
            simp only [natDecimal_ne_neg1 s.length, if_false, parseNat_natDecimal]
            by_cases hn : List.length ([] : List Nat) < s.length
            · rw [if_pos hn]
            · rw [if_neg hn]
              have : s.length = 0 := by simpa using hn
              rw [this]
              rfl
          · rw [readLine_prefix_incomplete (natDecimal_no13 s.length) hqa heq]
        · have hne' : q' ≠ s ++ [13, 10] := by
            intro hcontra
            exact hne (by rw [hcontra])
          simp only [List.append_assoc, List.cons_append, List.nil_append]
          rw [readLine_complete (natDecimal_no13 s.length) q']
          simp only [natDecimal_ne_neg1 s.length, if_false, parseNat_natDecimal]
          by_cases hlen : q'.length < s.length
          · rw [if_pos hlen]
          · rw [if_neg hlen]
            have hq'' : ∃ t, q' = s ++ t ∧ t <+: [13, 10] ∧ t ≠ [13, 10] := by
              rcases prefix_append_cases hq' with hqs | ⟨t, rfl, ht⟩
              · have hqlen : q'.length = s.length :=
                  Nat.le_antisymm (List.IsPrefix.length_le hqs) (Nat.le_of_not_lt hlen)
                have : q' = s := List.IsPrefix.eq_of_length hqs hqlen
                subst this
                exact ⟨[], by rw [List.append_nil], List.nil_prefix, by simp⟩
              · refine ⟨t, rfl, ht, ?_⟩
                intro hcontra
                exact hne' (by rw [hcontra])
            obtain ⟨t, rfl, ht, htne⟩ := hq''
            rw [List.drop_left s t]
            rcases prefix_crlf_cases ht htne with rfl | rfl <;> rfl
      | array xs =>
        have hvl : validList xs = true := by
          simpa [validF] using hv
        rw [show encodeFrame (.array xs) =
          42 :: ((natDecimal xs.length ++ [13, 10]) ++ encodeList xs) from by
            simp [encodeFrame]] at hp hne
        obtain ⟨hc, hq⟩ := List.cons_prefix_cons.mp hp
        subst hc
        rw [decodeF_tag42]
        rcases prefix_append_cases hq with hqa | ⟨q', rfl, hq'⟩
        · by_cases heq : q = natDecimal xs.length ++ [13, 10]
          · subst heq
            rw [readLine_complete (natDecimal_no13 xs.length) []]
            simp only [parseNat_natDecimal]
            cases hxs : xs with
            | nil =>
              exact absurd (by rw [hxs]; simp [encodeList]) hne
            | cons y ys =>
              simp only [List.length_cons, decodeN, decodeF_nil]
          · rw [readLine_prefix_incomplete (natDecimal_no13 xs.length) hqa heq]
        · have hne' : q' ≠ encodeList xs := by
            intro hcontra
            exact hne (by rw [hcontra])
          simp only [List.append_assoc, List.cons_append, List.nil_append]
          rw [readLine_complete (natDecimal_no13 xs.length) q']
          simp only [parseNat_natDecimal]
          have hC : ∀ {f : RFrame} (rest : List Nat), validF f = true →
              decodeF fl (encodeFrame f ++ rest) = .done f rest ∨
              decodeF fl (encodeFrame f ++ rest) = .incomplete := by
            intro f rest hvf
            rcases decodeF_complete fl rest hvf with h | ⟨h, _⟩
            · exact Or.inl h
            · exact Or.inr h
          rw [decodeN_prefix_incomplete (fun hvf hpf hnef => ih hvf hpf hnef) hC hvl hq' hne']

/-! ## Corollaries at the `decode_mut` call-site fuel -/

theorem decodeOne_sound {b : List Nat} {f : RFrame} {rest : List Nat}
    (h : decodeOne b = .done f rest) :
    b = encodeFrame f ++ rest ∧ validF f = true :=
  decodeF_sound _ h

theorem decodeOne_encode {f : RFrame} (rest : List Nat) (hv : validF f = true) :
    decodeOne (encodeFrame f ++ rest) = .done f rest := by
  rcases decodeF_complete ((encodeFrame f ++ rest).length + 1) rest hv with h | ⟨_, hle⟩
  · exact h
  · exfalso
    rw [List.length_append] at hle
    omega

theorem decodeOne_prefix_incomplete {f : RFrame} {p : List Nat} (hv : validF f = true)
    (hp : p <+: encodeFrame f) (hne : p ≠ encodeFrame f) :
    decodeOne p = .incomplete :=
  decodeF_prefix_incomplete _ hv hp hne

theorem decodeOne_nil : decodeOne [] = .incomplete := rfl

/-! ## Behaviour of the decode loop -/

theorem decodeLoopF_some_ne_nil : ∀ fuel (c : RedisCodec) (b : List Nat)
    {ms : List Message} {l : List Nat} {c' : RedisCodec},
    decodeLoopF fuel c b = .ok (some ms, l, c') → ms ≠ [] := by
  intro fuel
  induction fuel with
  | zero => intro c b ms l c' h; cases h
  | succ fl ih =>
    intro c b ms l c' h
    rcases hd : decodeOne b with ⟨f, r⟩ | _ | _
    · rcases hm : c.frame_to_message f with e | m
      · simp only [decodeLoopF, hd, hm] at h
        cases h
      · simp only [decodeLoopF, hd, hm] at h
        exact ih _ _ h
    · simp only [decodeLoopF, hd] at h
      split at h
      · simp only [Except.ok.injEq, Prod.mk.injEq] at h
        exact absurd h.1 (by simp)
      · rename_i hcond
        simp only [Bool.or_eq_true, not_or, Bool.not_eq_true] at hcond
        simp only [Except.ok.injEq, Prod.mk.injEq] at h
        obtain ⟨h1, _, _⟩ := h
        injection h1 with h1
        rw [← h1]
        intro hnil
        rw [hnil] at hcond
        simp at hcond
    · simp only [decodeLoopF, hd] at h
      cases h

theorem decodeLoopF_run_incomplete : ∀ (fs : List RFrame), ∀ fuel (c : RedisCodec)
    (p : List Nat), c.enable_metadata = false → validList fs = true →
    decodeOne p = .incomplete → p ≠ [] →
    (encodeList fs ++ p).length < fuel →
    decodeLoopF fuel c (encodeList fs ++ p) =
      .ok (none, p, { c with messages :=
                        c.messages ++ fs.map (fun f => Message.new .Unknown false (.Redis f)) }) := by
  intro fs
  induction fs with
  | nil =>
    intro fuel c p _ _ hinc hpne hfuel
    cases fuel with
    | zero => simp at hfuel
    | succ fl =>
      have hpe : p.isEmpty = false := by
        cases p with
        | nil => exact absurd rfl hpne
        | cons x xs => rfl
      simp only [encodeList, List.nil_append] at hfuel ⊢
      simp only [decodeLoopF, hinc, hpe, Bool.not_false, Bool.or_true, if_true,
        List.map_nil, List.append_nil]
  | cons f fs' ih =>
    intro fuel c p hem hv hinc hpne hfuel
    have hvx : validF f = true := by
      simp only [validList, Bool.and_eq_true] at hv
      exact hv.1
    have hvl : validList fs' = true := by
      simp only [validList, Bool.and_eq_true] at hv
      exact hv.2
    have hb : encodeList (f :: fs') ++ p = encodeFrame f ++ (encodeList fs' ++ p) := by
      rw [encodeList, List.append_assoc]
    rw [hb] at hfuel ⊢
    cases fuel with
    | zero => simp at hfuel
    | succ fl =>
      have hd : decodeOne (encodeFrame f ++ (encodeList fs' ++ p)) =
          .done f (encodeList fs' ++ p) := decodeOne_encode _ hvx
      have hm : c.frame_to_message f = .ok (Message.new .Unknown false (.Redis f)) := by
        simp only [RedisCodec.frame_to_message, hem, Bool.false_eq_true, if_false]
      simp only [decodeLoopF, hd, hm]
      have hfuel' : (encodeList fs' ++ p).length < fl := by
        rw [List.length_append, List.length_append] at hfuel
        have := encodeFrame_length_pos f
        rw [List.length_append]
        omega
      rw [ih fl { c with messages :=
            c.messages ++ [Message.new .Unknown false (.Redis f)] } p hem hvl hinc hpne
          hfuel']
      simp [List.append_assoc]

theorem decodeLoopF_run_flush : ∀ (fs : List RFrame), ∀ fuel (c : RedisCodec),
    c.enable_metadata = false → validList fs = true →
    c.messages ++ fs.map (fun f => Message.new .Unknown false (.Redis f)) ≠ [] →
    (encodeList fs).length < fuel →
    decodeLoopF fuel c (encodeList fs) =
      .ok (some (c.messages ++ fs.map (fun f => Message.new .Unknown false (.Redis f))),
        [], { c with messages := [] }) := by
  intro fs
  induction fs with
  | nil =>
    intro fuel c _ _ hne hfuel
    cases fuel with
    | zero => simp at hfuel
    | succ fl =>
      simp only [List.map_nil, List.append_nil] at hne
      have hie : c.messages.isEmpty = false := by
        cases hm : c.messages with
        | nil => exact absurd hm hne
        | cons x xs => rfl
      simp only [encodeList, decodeLoopF, decodeOne_nil, hie, List.isEmpty_nil,
        Bool.not_true, Bool.or_false, if_false, List.map_nil, List.append_nil]
      rfl
  | cons f fs' ih =>
    intro fuel c hem hv hne hfuel
    have hvx : validF f = true := by
      simp only [validList, Bool.and_eq_true] at hv
      exact hv.1
    have hvl : validList fs' = true := by
      simp only [validList, Bool.and_eq_true] at hv
      exact hv.2
    rw [encodeList] at hfuel ⊢
    cases fuel with
    | zero => simp at hfuel
    | succ fl =>
      have hd : decodeOne (encodeFrame f ++ encodeList fs') =
          .done f (encodeList fs') := decodeOne_encode _ hvx
      have hm : c.frame_to_message f = .ok (Message.new .Unknown false (.Redis f)) := by
        simp only [RedisCodec.frame_to_message, hem, Bool.false_eq_true, if_false]
      simp only [decodeLoopF, hd, hm]
      have hne' : ({ c with messages := c.messages ++
          [Message.new .Unknown false (.Redis f)] } : RedisCodec).messages ++
          fs'.map (fun f => Message.new .Unknown false (.Redis f)) ≠ [] := by
        simp
      have hfuel' : (encodeList fs').length < fl := by
        rw [List.length_append] at hfuel
        have := encodeFrame_length_pos f
        omega
      rw [ih fl { c with messages :=
            c.messages ++ [Message.new .Unknown false (.Redis f)] } hem hvl hne' hfuel']
      simp [List.append_assoc]

theorem decodeLoopF_pass : ∀ fuel (c : RedisCodec) (b : List Nat)
    {out : Option (List Message)} {l : List Nat} {c' : RedisCodec},
    c.enable_metadata = false → c.messages.all Message.passthrough = true →
    decodeLoopF fuel c b = .ok (out, l, c') →
    c'.enable_metadata = false ∧ c'.messages.all Message.passthrough = true ∧
      ∀ ms, out = some ms → ms.all Message.passthrough = true := by
  intro fuel
  induction fuel with
  | zero => intro c b out l c' _ _ h; cases h
  | succ fl ih =>
    intro c b out l c' hem hall h
    rcases hd : decodeOne b with ⟨f, r⟩ | _ | _
    · rcases hm : c.frame_to_message f with e | m
      · simp only [decodeLoopF, hd, hm] at h
        cases h
      · have hmp : m = Message.new .Unknown false (.Redis f) := by
          simp only [RedisCodec.frame_to_message, hem, Bool.false_eq_true, if_false,
            Except.ok.injEq] at hm
          exact hm.symm
        simp only [decodeLoopF, hd, hm] at h
        refine ih _ _ ?_ ?_ h
        · exact hem
        · simp only [List.all_append, hall, Bool.true_and, List.all_cons, List.all_nil,
            Bool.and_true, hmp]
          rfl
    · simp only [decodeLoopF, hd] at h
      split at h
      · simp only [Except.ok.injEq, Prod.mk.injEq] at h
        obtain ⟨h1, _, h3⟩ := h
        subst h3
        refine ⟨hem, hall, ?_⟩
        intro ms hms
        rw [← h1] at hms
        cases hms
      · simp only [Except.ok.injEq, Prod.mk.injEq] at h
        obtain ⟨h1, _, h3⟩ := h
        subst h3
        refine ⟨hem, by simp, ?_⟩
        intro ms hms
        rw [← h1] at hms
        injection hms with hms
        rw [← hms]
        exact hall
    · simp only [decodeLoopF, hd] at h
      cases h

/-! ## Big-endian cell encodings -/

theorem beBytes_length : ∀ (w n : Nat), (beBytes w n).length = w := by
  intro w
  induction w with
  | zero => intro n; rfl
  | succ k ih =>
    intro n
    rw [beBytes, List.length_append, ih]
    simp

theorem beVal_beBytes : ∀ (w n : Nat), beVal (beBytes w n) = n % 256 ^ w := by
  intro w
  induction w with
  | zero => intro n; simp [beBytes, beVal, Nat.mod_one]
  | succ k ih =>
    intro n
    rw [beBytes, beVal, List.foldl_append]
    have h1 : List.foldl (fun a b => a * 256 + b) 0 (beBytes k (n / 256)) =
        (n / 256) % 256 ^ k := ih (n / 256)
    rw [h1]
    simp only [List.foldl_cons, List.foldl_nil]
    have h2 : n % (256 * 256 ^ k) = n % 256 + 256 * (n / 256 % 256 ^ k) :=
      Nat.mod_mul
    have h3 : (256 : Nat) ^ (k + 1) = 256 * 256 ^ k := by
      rw [pow_succ]
      ring
    rw [h3, h2]
    ring

/-! ## Claim theorems -/

/-- C1: for every raw byte sequence `b` holding exactly one complete RESP2
frame, decoding `b` on a fresh `RedisCodec` yields that single message
(unmodified passthrough), and encoding the resulting unmodified message
appends exactly `b` to the output buffer; and for every syntactically valid
frame `f`, decoding the encoding of `f` reconstructs an equal frame value. -/
theorem C1_roundtrip :
    (∀ (b : List Nat) (f : RFrame) (dt : DecodeType) (dst : List Nat),
      decodeOne b = .done f [] →
      RedisCodec.decode (RedisCodec.new dt) b =
        .ok (some [Message.new .Unknown false (.Redis f)], [],
          { decode_type := dt, enable_metadata := false, messages := [] }) ∧
      RedisCodec.encode (RedisCodec.new dt)
        [Message.new .Unknown false (.Redis f)] dst = .ok (dst ++ b)) ∧
    (∀ f : RFrame, validF f = true →
      decodeOne (encodeFrame f) = .done f []) := by
  constructor
  · intro b f dt dst h
    obtain ⟨hb, hv⟩ := decodeOne_sound h
    rw [List.append_nil] at hb
    subst hb
    constructor
    · have hlist : encodeList [f] = encodeFrame f := by
        simp [encodeList]
      rw [RedisCodec.decode, ← hlist]
      rw [decodeLoopF_run_flush [f] ((encodeList [f]).length + 1) (RedisCodec.new dt)
        rfl (by simp [validList, hv]) (by simp) (by omega)]
      simp [RedisCodec.new]
    · simp [RedisCodec.encode, RedisCodec.encode_message, get_redis_frame,
        Message.new, List.foldlM, Except.map]
  · intro f hv
    have h := decodeOne_encode [] hv
    rwa [List.append_nil] at h

/-- C1 witness: the concrete simple-string frame `+OK\r\n`. -/
theorem C1_roundtrip_witness :
    (RedisCodec.decode (RedisCodec.new .Query) [43, 79, 75, 13, 10] =
      .ok (some [Message.new .Unknown false (.Redis (.simpleString [79, 75]))], [],
        { decode_type := .Query, enable_metadata := false, messages := [] }) ∧
      RedisCodec.encode (RedisCodec.new .Query)
        [Message.new .Unknown false (.Redis (.simpleString [79, 75]))] [] =
        .ok ([] ++ [43, 79, 75, 13, 10])) ∧
    decodeOne (encodeFrame (.simpleString [79, 75])) =
      .done (.simpleString [79, 75]) [] :=
  ⟨C1_roundtrip.1 [43, 79, 75, 13, 10] (.simpleString [79, 75]) .Query [] (by rfl),
   C1_roundtrip.2 (.simpleString [79, 75]) (by rfl)⟩

/-- C2 counterexample: a buffer holding one complete frame (`+OK\r\n`)
followed by a strict prefix of a second frame (the lone tag byte `+`).  One
call to `decode` on a fresh codec returns `none` — not a batch of one
message as the claim states; the decoded message is held back in the
codec's internal batch and the partial byte stays in the buffer. -/
theorem C2_counterexample :
    RedisCodec.decode (RedisCodec.new .Query) [43, 79, 75, 13, 10, 43] =
      .ok (none, [43],
        { decode_type := .Query, enable_metadata := false,
          messages := [Message.new .Unknown false
                         (.Redis (.simpleString [79, 75]))] }) := by
  rfl

/-- C2 amended: with N >= 1 complete frames followed by a non-empty strict
prefix of an (N+1)-th frame, one call on a fresh codec returns `None`: the
N messages are accumulated, in arrival order, in the codec's internal batch
and the partial bytes remain in the buffer; a later call that finds the
buffer fully consumed flushes the accumulated batch. -/
theorem C2_batching_amended :
    ∀ (fs : List RFrame) (g : RFrame) (p : List Nat) (dt : DecodeType),
      fs ≠ [] → validList fs = true → validF g = true →
      p <+: encodeFrame g → p ≠ encodeFrame g → p ≠ [] →
      (RedisCodec.decode (RedisCodec.new dt) (encodeList fs ++ p) =
        .ok (none, p,
          { decode_type := dt, enable_metadata := false,
            messages := fs.map (fun f => Message.new .Unknown false (.Redis f)) }) ∧
       ∀ (ms : List Message), ms ≠ [] →
         RedisCodec.decode
             { decode_type := dt, enable_metadata := false, messages := ms } [] =
           .ok (some ms, [],
             { decode_type := dt, enable_metadata := false, messages := [] })) := by
  intro fs g p dt _ hv hvg hp hpne hpnil
  constructor
  · have hinc : decodeOne p = .incomplete := decodeOne_prefix_incomplete hvg hp hpne
    rw [RedisCodec.decode,
      decodeLoopF_run_incomplete fs ((encodeList fs ++ p).length + 1)
        (RedisCodec.new dt) p rfl hv hinc hpnil (by omega)]
    simp [RedisCodec.new]
  · intro ms hms
    rw [RedisCodec.decode]
    have h := decodeLoopF_run_flush []
      (([] : List Nat).length + 1)
      { decode_type := dt, enable_metadata := false, messages := ms }
      rfl rfl (by simpa using hms) (by simp [encodeList])
    simpa [encodeList] using h

/-- C2 amended witness: one complete `+OK\r\n` frame plus the partial byte
`+`, then the flushing call on the emptied buffer. -/
theorem C2_batching_amended_witness :
    (RedisCodec.decode (RedisCodec.new .Query)
        (encodeList [.simpleString [79, 75]] ++ [43]) =
      .ok (none, [43],
        { decode_type := .Query, enable_metadata := false,
          messages := [Message.new .Unknown false
                         (.Redis (.simpleString [79, 75]))] })) ∧
    RedisCodec.decode
        { decode_type := .Query, enable_metadata := false,
          messages := [Message.new .Unknown false
                         (.Redis (.simpleString [79, 75]))] } [] =
      .ok (some [Message.new .Unknown false (.Redis (.simpleString [79, 75]))], [],
        { decode_type := .Query, enable_metadata := false, messages := [] }) := by
  have h := C2_batching_amended [.simpleString [79, 75]] (.simpleString [79, 75])
    [43] .Query (by simp) (by rfl) (by rfl) ⟨[79, 75, 13, 10], rfl⟩ (by decide)
    (by simp)
  exact ⟨by simpa using h.1, h.2 _ (by simp)⟩

/-- C4: whenever `RedisCodec::decode` returns a present batch, that batch
is non-empty; and on a fresh codec, when the buffer holds no complete
leading frame (the frame decoder reports "incomplete"), `decode` returns
`None` and leaves the buffer untouched, even if the buffer is nonempty —
a lone partial frame is never emitted. -/
theorem C4_batch_nonempty :
    (∀ (c : RedisCodec) (b : List Nat) (ms : List Message) (l : List Nat)
       (c' : RedisCodec),
      RedisCodec.decode c b = .ok (some ms, l, c') → ms ≠ []) ∧
    (∀ (dt : DecodeType) (b : List Nat),
      decodeOne b = .incomplete →
      RedisCodec.decode (RedisCodec.new dt) b =
        .ok (none, b, RedisCodec.new dt)) := by
  constructor
  · intro c b ms l c' h
    exact decodeLoopF_some_ne_nil _ c b h
  · intro dt b hinc
    rw [RedisCodec.decode]
    simp only [decodeLoopF, hinc, RedisCodec.new, List.isEmpty_nil, Bool.true_or,
      if_true]

/-- C4 witness: a non-empty batch from `+OK\r\n`, and the nonempty partial
buffer `+` yielding `None`. -/
theorem C4_batch_nonempty_witness :
    ([Message.new .Unknown false (.Redis (.simpleString [79, 75]))] ≠
      ([] : List Message)) ∧
    RedisCodec.decode (RedisCodec.new .Query) [43] =
      .ok (none, [43], RedisCodec.new .Query) :=
  ⟨C4_batch_nonempty.1 (RedisCodec.new .Query) [43, 79, 75, 13, 10] _ []
      { decode_type := .Query, enable_metadata := false, messages := [] } (by rfl),
   C4_batch_nonempty.2 .Query [43] (by rfl)⟩

/-- C10: `RedisCodec::new` initializes `enable_metadata` to `false`, and
decoding with any codec whose `enable_metadata` is `false` (no operation
ever sets it to `true`) preserves that flag and produces only pure
passthrough messages: `details = Unknown` and `modified = false`, both in
the emitted batch and in the internally accumulated messages. -/
theorem C10_passthrough :
    (∀ dt, (RedisCodec.new dt).enable_metadata = false) ∧
    (∀ (c : RedisCodec) (b : List Nat) (out : Option (List Message))
       (l : List Nat) (c' : RedisCodec),
      c.enable_metadata = false → c.messages.all Message.passthrough = true →
      RedisCodec.decode c b = .ok (out, l, c') →
      c'.enable_metadata = false ∧ c'.messages.all Message.passthrough = true ∧
        ∀ ms, out = some ms → ms.all Message.passthrough = true) := by
  constructor
  · intro dt
    rfl
  · intro c b out l c' hem hall h
    exact decodeLoopF_pass _ c b hem hall h

/-- C10 witness: the batch decoded from `+OK\r\n` on a fresh codec is all
passthrough messages. -/
theorem C10_passthrough_witness :
    (RedisCodec.new .Query).enable_metadata = false ∧
    ([Message.new .Unknown false (.Redis (.simpleString [79, 75]))].all
      Message.passthrough = true) :=
  ⟨C10_passthrough.1 .Query,
   (C10_passthrough.2 (RedisCodec.new .Query) [43, 79, 75, 13, 10]
      (some [Message.new .Unknown false (.Redis (.simpleString [79, 75]))]) []
      { decode_type := .Query, enable_metadata := false, messages := [] }
      rfl rfl (by rfl)).2.2 _ rfl⟩

/-- C3 counterexample: a semantic Response whose result is a Rows value but
whose matching query is absent.  The claim says rebuilding "fails with a
reported error for that single response and does not panic"; but
`build_cassandra_response_frame` has no error channel at all — its only
outcomes are a rebuilt frame or a Rust panic (`unreachable!()` / `unwrap`)
— and at this input it panics. -/
theorem C3_counterexample :
    build_cassandra_response_frame
      { matching_query := none,
        result := some (.Rows [[.Strings [97]]]),
        error := none, response_meta := none } = .panic := by
  rfl

/-- C3 amended: for every Response whose result is a Rows value, if the
matching query is absent, or its projection is absent, or its projection is
non-empty and the namespace lacks the keyspace (index 0) or table (index 1)
entry, then `build_cassandra_response_frame` panics (`unreachable!()` or
`unwrap` on `None`) rather than reporting an error. -/
theorem C3_rebuild_panics :
    ∀ (resp : CQueryResponse) (rows : List (List CValue)),
      resp.result = some (.Rows rows) →
      (resp.matching_query = none ∨
       (∃ q, resp.matching_query = some q ∧
         (q.projection = none ∨
          (∃ pr prs, q.projection = some (pr :: prs) ∧
            (q.namespace_.get? 0 = none ∨ q.namespace_.get? 1 = none))))) →
      build_cassandra_response_frame resp = .panic := by
  intro resp rows hres hcond
  rcases hcond with hmq | ⟨q, hmq, hq⟩
  · simp only [build_cassandra_response_frame, hres, hmq]
  · simp only [build_cassandra_response_frame, hres, hmq]
    rcases horig : q.original with qf | _
    · rcases hq with hpr | ⟨pr, prs, hpr, hns⟩
      · simp only [hpr]
      · simp only [hpr]
        have hcol : buildColSpecs (pr :: prs) q.namespace_ = none := by
          rcases hns0 : q.namespace_.get? 0 with _ | ks
          · simp only [buildColSpecs, List.mapM_cons, hns0, Option.bind_eq_bind]
            rfl
          · rcases hns with hns | hns
            · rw [hns0] at hns
              cases hns
            · simp only [buildColSpecs, List.mapM_cons, hns0, hns,
                Option.bind_eq_bind]
              rfl
        simp only [hcol]
    · rfl

/-- C3 amended witness: a Rows response whose matching query lacks a
projection. -/
theorem C3_rebuild_panics_witness :
    build_cassandra_response_frame
      { matching_query := some
          { original := .CASSANDRA
              { version := .Request, flags := [], opcode := .Query, stream := 0,
                body := .raw [], tracing_id := none, warnings := [] },
            namespace_ := [], projection := none },
        result := some (.Rows [[.Strings [97]]]),
        error := none, response_meta := none } = .panic :=
  C3_rebuild_panics _ [[.Strings [97]]] rfl
    (Or.inr ⟨_, rfl, Or.inl rfl⟩)

/-- C8: each tabular result cell is serialized according to its tagged
type: Integer as its 8-byte big-endian two's complement, Float as the 8
big-endian bytes of its IEEE-754 bit pattern, Boolean as a 4-byte
big-endian 0 or 1, String/Bytes as their UTF-8 bytes, Timestamp as its
RFC-2822 text bytes, and NULL as the 4-byte big-endian -1 sentinel.
`beVal` reads a byte string most-significant-byte first, which is what
"big-endian" asserts. -/
theorem C8_cell_serialization :
    ∀ (x : Int) (bits : Nat) (s bs : List Nat) (t : TimestampM),
      (cellBytes (.Integer x) = some (i64be x) ∧
        (i64be x).length = 8 ∧ beVal (i64be x) = (x.emod (2 ^ 64)).toNat) ∧
      (cellBytes (.Float bits) = some (f64be bits) ∧
        (f64be bits).length = 8 ∧ beVal (f64be bits) = bits % 2 ^ 64) ∧
      (cellBytes (.Boolean true) = some [0, 0, 0, 1] ∧
        cellBytes (.Boolean false) = some [0, 0, 0, 0]) ∧
      cellBytes (.Strings s) = some s ∧
      cellBytes (.Bytes bs) = some bs ∧
      cellBytes (.Timestamp t) = some t.rfc2822 ∧
      cellBytes .NULL = some [255, 255, 255, 255] := by
  intro x bits s bs t
  have hemod : (x.emod (2 ^ 64)).toNat < 2 ^ 64 := by
    have h1 : 0 ≤ x.emod (2 ^ 64) := Int.emod_nonneg x (by norm_num)
    have h2 : x.emod (2 ^ 64) < 2 ^ 64 := Int.emod_lt_of_pos x (by norm_num)
    omega
  refine ⟨⟨rfl, beBytes_length 8 _, ?_⟩, ⟨rfl, beBytes_length 8 _, ?_⟩,
    ⟨by rfl, by rfl⟩, rfl, rfl, rfl, by rfl⟩
  · rw [i64be, beVal_beBytes]
    have : (256 : Nat) ^ 8 = 2 ^ 64 := by norm_num
    rw [this]
    omega
  · rw [f64be, beVal_beBytes]
    have : (256 : Nat) ^ 8 = 2 ^ 64 := by norm_num
    rw [this]
    omega

/-- C5: classifying `SET key value` yields a Write query whose primary key
entry `key` holds the list [key] and whose value map holds the value under
the field name `key`; classifying `GET key` yields a Read query with the
same primary-key entry and no recorded value (the value map holds the
`None` placeholder for the key). -/
theorem C5_set_get_classification :
    handle_redis_array_query
        [.bulkString (strBytes ("SET")), .bulkString (strBytes ("key")),
         .bulkString (strBytes ("value"))] =
      .ok { query_string := strBytes ("SET key value"),
            namespace_ := [],
            primary_key := [(strBytes ("key"),
                              .List [.Bytes (strBytes ("key"))])],
            query_values := some [(strBytes ("key"),
                                    .Bytes (strBytes ("value")))],
            projection := none,
            query_type := .Write,
            ast := some (.Commands (.List
              [.Bytes (strBytes ("SET")), .Bytes (strBytes ("key")),
               .Bytes (strBytes ("value"))])) } ∧
    handle_redis_array_query
        [.bulkString (strBytes ("GET")), .bulkString (strBytes ("key"))] =
      .ok { query_string := strBytes ("GET key"),
            namespace_ := [],
            primary_key := [(strBytes ("key"),
                              .List [.Bytes (strBytes ("key"))])],
            query_values := some [(strBytes ("key"), MessageValue.None)],
            projection := none,
            query_type := .Read,
            ast := some (.Commands (.List
              [.Bytes (strBytes ("GET")), .Bytes (strBytes ("key"))])) } := by
  exact ⟨rfl, rfl⟩

/-- C6 counterexample: for `LPUSH a b c` the claim's extraction rule ("all
elements but the last are values, the last element is the key") predicts a
value list ["a", "b"] stored under field "c" (byte 99); the code instead
stores the list [ "c", "b" ] (reversed wire order) under the first argument
"a" (byte 97), and no field exists under "c". -/
theorem C6_counterexample :
    (handle_redis_array_query
       [.bulkString (strBytes ("LPUSH")), .bulkString [97], .bulkString [98],
        .bulkString [99]]).map
      (fun qm => (qm.query_values.map (hmGet [99]),
                  qm.query_values.map (hmGet [97]),
                  hmGet (strBytes ("key")) qm.primary_key)) =
      .ok (some none,
           some (some (.List [.Bytes [99], .Bytes [98]])),
           some (.List [.Bytes [97]])) := by
  rfl

/-- C6 amended: for the key+multi-value commands LPUSH, RPUSH and SADD with
argument elements e1..en after the command name, the FIRST element e1 is
recorded as the key, and the remaining elements e2..en are recorded, in
REVERSED wire order (en..e2), as a list under the key's own field name; in
particular `LPUSH list x` yields Write with the value ["x"] under field
"list". -/
theorem C6_key_multi_values_amended :
    (∀ (key : List Nat) (args : List RFrame),
      handle_redis_array_query
          (.bulkString (strBytes ("LPUSH")) :: .bulkString key :: args) =
        .ok { query_string := List.intercalate [32]
                ((RFrame.bulkString (strBytes ("LPUSH")) ::
                  RFrame.bulkString key :: args).filterMap RFrame.as_str),
              namespace_ := [],
              primary_key := [(strBytes ("key"), .List [.Bytes key])],
              query_values := some [(key, .List (toValueList args.reverse))],
              projection := none,
              query_type := .Write,
              ast := some (.Commands (.List (toValueList
                (.bulkString (strBytes ("LPUSH")) ::
                 .bulkString key :: args)))) }) ∧
    (∀ (key : List Nat) (args : List RFrame),
      handle_redis_array_query
          (.bulkString (strBytes ("RPUSH")) :: .bulkString key :: args) =
        .ok { query_string := List.intercalate [32]
                ((RFrame.bulkString (strBytes ("RPUSH")) ::
                  RFrame.bulkString key :: args).filterMap RFrame.as_str),
              namespace_ := [],
              primary_key := [(strBytes ("key"), .List [.Bytes key])],
              query_values := some [(key, .List (toValueList args.reverse))],
              projection := none,
              query_type := .Write,
              ast := some (.Commands (.List (toValueList
                (.bulkString (strBytes ("RPUSH")) ::
                 .bulkString key :: args)))) }) ∧
    (∀ (key : List Nat) (args : List RFrame),
      handle_redis_array_query
          (.bulkString (strBytes ("SADD")) :: .bulkString key :: args) =
        .ok { query_string := List.intercalate [32]
                ((RFrame.bulkString (strBytes ("SADD")) ::
                  RFrame.bulkString key :: args).filterMap RFrame.as_str),
              namespace_ := [],
              primary_key := [(strBytes ("key"), .List [.Bytes key])],
              query_values := some [(key, .List (toValueList args.reverse))],
              projection := none,
              query_type := .Write,
              ast := some (.Commands (.List (toValueList
                (.bulkString (strBytes ("SADD")) ::
                 .bulkString key :: args)))) }) ∧
    handle_redis_array_query
        [.bulkString (strBytes ("LPUSH")), .bulkString (strBytes ("list")),
         .bulkString (strBytes ("x"))] =
      .ok { query_string := strBytes ("LPUSH list x"),
            namespace_ := [],
            primary_key := [(strBytes ("key"),
                              .List [.Bytes (strBytes ("list"))])],
            query_values := some [(strBytes ("list"),
                                    .List [.Bytes (strBytes ("x"))])],
            projection := none,
            query_type := .Write,
            ast := some (.Commands (.List
              [.Bytes (strBytes ("LPUSH")), .Bytes (strBytes ("list")),
               .Bytes (strBytes ("x"))])) } := by
  refine ⟨?_, ?_, ?_, by rfl⟩
  · intro key args
    have ht : commandTable (List.map asciiUpper (strBytes ("LPUSH"))) =
        (.keyMultiValues, .Write) := by rfl
    simp only [handle_redis_array_query, ht, runShape, List.reverse_cons,
      get_key_multi_values, List.getLast?_concat, List.dropLast_concat,
      hmInsert, toValue]
  · intro key args
    have ht : commandTable (List.map asciiUpper (strBytes ("RPUSH"))) =
        (.keyMultiValues, .Write) := by rfl
    simp only [handle_redis_array_query, ht, runShape, List.reverse_cons,
      get_key_multi_values, List.getLast?_concat, List.dropLast_concat,
      hmInsert, toValue]
  · intro key args
    have ht : commandTable (List.map asciiUpper (strBytes ("SADD"))) =
        (.keyMultiValues, .Write) := by rfl
    simp only [handle_redis_array_query, ht, runShape, List.reverse_cons,
      get_key_multi_values, List.getLast?_concat, List.dropLast_concat,
      hmInsert, toValue]

/-- C7: responses are classified structurally by frame variant:
SimpleString gives a String result, BulkString a Bytes result, Array a List
result, Integer an Integer result, Error a populated error with empty
result, and Null the empty response (no result, no error). -/
theorem C7_response_classification :
    (∀ s, process_redis_frame_response (.simpleString s) =
      .ok { matching_query := none, result := some (.Strings s),
            error := none, response_meta := none }) ∧
    (∀ bs, process_redis_frame_response (.bulkString bs) =
      .ok { matching_query := none, result := some (.Bytes bs),
            error := none, response_meta := none }) ∧
    (∀ xs, process_redis_frame_response (.array xs) =
      .ok { matching_query := none, result := some (.List (toValueList xs)),
            error := none, response_meta := none }) ∧
    (∀ i, process_redis_frame_response (.integer i) =
      .ok { matching_query := none, result := some (.Integer i .I32),
            error := none, response_meta := none }) ∧
    (∀ e, process_redis_frame_response (.error e) =
      .ok { matching_query := none, result := none,
            error := some (.Strings e), response_meta := none }) ∧
    process_redis_frame_response .null =
      .ok { matching_query := none, result := none, error := none,
            response_meta := none } :=
  ⟨fun _ => rfl, fun _ => rfl, fun _ => rfl, fun _ => rfl, fun _ => rfl, rfl⟩

/-- C9: for every Array command frame (first element a bulk-string command
name), the classifier's query string is the bulk-string elements joined
with single spaces in frame order (`as_str` contributes nothing for
non-string elements), while every element — string or not — is retained in
the AST-holder. -/
theorem C9_query_string_join :
    ∀ (cmd : List Nat) (args : List RFrame),
      ∃ qm,
        handle_redis_array_query (.bulkString cmd :: args) = .ok qm ∧
        qm.query_string = List.intercalate [32]
          ((RFrame.bulkString cmd :: args).filterMap RFrame.as_str) ∧
        qm.ast = some (.Commands (.List (toValueList (.bulkString cmd :: args)))) := by
  intro cmd args
  rcases ht : commandTable (cmd.map asciiUpper) with ⟨sh, qt⟩
  rcases hr : runShape sh args.reverse with ⟨qv, pk⟩
  refine ⟨{ query_string := List.intercalate [32]
              ((RFrame.bulkString cmd :: args).filterMap RFrame.as_str),
            namespace_ := [], primary_key := pk, query_values := some qv,
            projection := none, query_type := qt,
            ast := some (.Commands (.List (toValueList
              (.bulkString cmd :: args)))) }, ?_, rfl, rfl⟩
  simp only [handle_redis_array_query, ht, hr]
